import Mathlib

/-!
# kldstat-stack-disclosure: the canary-identification heuristic

A shallow embedding of `src/kldstat-stack-disclosure.c`.

Conventions of the embedding:

* `uint64_t` values are natural numbers; a word is 64-bit when it is `< 2 ^ 64`.
  Shifts and masks are the ones of the source (`>>>`, `&&&`).
* `uint8_t count[16]` is a function `Nat → Nat` read at the indices `0..15`; the
  increment `count[nibble]++` wraps modulo `2 ^ 8` as in C.
* The arithmetic of `float` is not part of the repository. The definitions
  `shannon_entropy`, `looks_like_stack_chk_guard`, `scan`, `leak_stack_chk_guard`
  perform it exactly, in `ℝ`, with `log2f` as `Real.logb 2`. The same functions
  are given a second time with the arithmetic as a parameter (`FloatArith`), of
  which `exact_real` (the reals) and `binary32` (IEEE 754 single precision, round to
  nearest even, on `ℚ`) are instances; statements that turn on exact equality
  of computed scores are made for the parametrised functions.
* The leaked buffer `stat.pathname`, read as `uint64_t` words, is a `List Nat`;
  the result of the external call `kldstat` is an input `err`.
-/

namespace KldstatStackDisclosure

/-! ## Constants -/

/-- The entropy threshold `stack_chk_guard_entropy_threshold = 2.7f`. -/
noncomputable def stack_chk_guard_entropy_threshold : ℝ := 2.7

/-- Modelled from the spec: the libm function `log2f` of `<math.h>`, which is not
part of the repository; it is the base-2 logarithm, here computed exactly. -/
noncomputable def log2f (x : ℝ) : ℝ := Real.logb 2 x

/-! ## shannon_entropy -/

/-- The statement `count[nibble]++` on a `uint8_t` array. -/
def count_incr (count : Nat → Nat) (nibble : Nat) : Nat → Nat :=
  fun k => if k = nibble then (count k + 1) % 256 else count k

/-- The first loop of `shannon_entropy`, with `i` iterations still to run:
`nibble = value & 0xf; value >>= 4; count[nibble]++`. -/
def shannon_entropy_count : Nat → Nat → (Nat → Nat) → (Nat → Nat)
  | 0, _, count => count
  | i + 1, value, count =>
    let nibble := value &&& 0xf
    let value := value >>> 4
    shannon_entropy_count i value (count_incr count nibble)

/-- One iteration of the second loop of `shannon_entropy`:
`if (count[i] > 0) { p = (float) count[i] / n; entropy -= p * log2f(p); }`. -/
noncomputable def shannon_entropy_step (n : Nat) (count : Nat → Nat) (entropy : ℝ) (i : Nat) : ℝ :=
  if count i > 0 then
    let p : ℝ := (count i : ℝ) / (n : ℝ)
    entropy - p * log2f p
  else entropy

/-- The function `shannon_entropy`: the Shannon entropy of a value over its nibbles. -/
noncomputable def shannon_entropy (value : Nat) : ℝ :=
  let n := 16
  let count := shannon_entropy_count n value (fun _ => 0)
  (List.range 16).foldl (shannon_entropy_step n count) 0

/-! ## looks_ascii -/

/-- Modelled from the spec: the libc predicate `isascii` of `<ctype.h>`, which is
not part of the repository; it holds for the 7-bit range `0x00..0x7F`, that is
when `(c & ~0x7F) == 0`. -/
def isascii (c : Nat) : Bool := c / 128 == 0

/-- The loop of `looks_ascii`, with `i` iterations still to run:
`byte = value & 0xff; value >>= 8; if (byte == 0 || isascii(byte)) ascii++`. -/
def looks_ascii_loop : Nat → Nat → Nat → Nat
  | 0, _, ascii => ascii
  | i + 1, value, ascii =>
    let byte := value &&& 0xff
    let value := value >>> 8
    looks_ascii_loop i value (if byte == 0 || isascii byte then ascii + 1 else ascii)

/-- The function `looks_ascii`: `sizeof(value) = 8` iterations, then
`ascii == sizeof(value)`. -/
def looks_ascii (value : Nat) : Bool :=
  looks_ascii_loop 8 value 0 == 8

/-! ## looks_like_stack_chk_guard -/

/-- The function `looks_like_stack_chk_guard`: the likelihood of a word. -/
noncomputable def looks_like_stack_chk_guard (value : Nat) : ℝ :=
  if value >>> 44 == 0xfffff then 0
  else if looks_ascii value then 0
  else
    let entropy := shannon_entropy value
    if entropy ≤ stack_chk_guard_entropy_threshold then 0
    else entropy

/-! ## leak_stack_chk_guard -/

/-- The body of the scan loop of `leak_stack_chk_guard` on the word `leak[i]`,
acting on the pair `(canary, canary_likelihood)`. -/
noncomputable def scan_step (st : Nat × ℝ) (w : Nat) : Nat × ℝ :=
  if w = st.1 then st
  else
    let likelihood := looks_like_stack_chk_guard w
    if likelihood > st.2 then (w, likelihood) else st

/-- The scan loop of `leak_stack_chk_guard` from `canary = 0`,
`canary_likelihood = 0`, over the words `leak[0..n-1]` in order. -/
noncomputable def scan (leak : List Nat) : Nat × ℝ :=
  leak.foldl scan_step (0, 0)

/-- The function `leak_stack_chk_guard`. `err` is the result of `kldstat`, `leak`
the words of `stat.pathname`, `out` the value held by `*stack_chk_guard` on entry.
The result is the return code together with the final value of `*stack_chk_guard`. -/
noncomputable def leak_stack_chk_guard (err : Int) (leak : List Nat) (out : Nat) : Int × Nat :=
  if err ≠ 0 then (1, out)
  else
    let canary := (scan leak).1
    if canary = 0 then (2, out)
    else (0, canary)

/-- The function `main`: its exit status is the result of `leak_stack_chk_guard`. -/
noncomputable def main (err : Int) (leak : List Nat) (out : Nat) : Int :=
  let ret := (leak_stack_chk_guard err leak out).1
  ret

/-! ## Reference definitions, following the words of the specification -/

/-- The nibble of `v` at position `i`: `(v >> 4*i) & 0xf`. -/
def nibble_at (v i : Nat) : Nat := (v >>> (4 * i)) &&& 0xf

/-- The number `c_k` of positions `i` in `0..15` whose nibble equals `k`. -/
def nibble_count (v k : Nat) : Nat :=
  (List.range 16).countP (fun i => nibble_at v i == k)

/-- The reference entropy: the sum over the `k` with `c_k > 0` of
`-(c_k/16) * log2(c_k/16)`. -/
noncomputable def entropy_ref (v : Nat) : ℝ :=
  ∑ k in (Finset.range 16).filter (fun k => 0 < nibble_count v k),
    -((nibble_count v k : ℝ) / 16) * Real.logb 2 ((nibble_count v k : ℝ) / 16)

/-- The byte of `v` at position `i`: `(v >> 8*i) & 0xff`. -/
def byte_at (v i : Nat) : Nat := (v >>> (8 * i)) &&& 0xff

/-! ## Auxiliary definitions of the proofs -/

/-- The contribution `p * log2f(p)` of a histogram bucket holding `c` of `n` nibbles,
`0` for an empty bucket. -/
noncomputable def bucket_term (n c : Nat) : ℝ :=
  if c > 0 then ((c : ℝ) / (n : ℝ)) * log2f ((c : ℝ) / (n : ℝ)) else 0

/-- The loop invariant of the scan: after the words `l` have been processed the
state `st = (canary, canary_likelihood)` holds the likelihood of `canary`, that
likelihood bounds the likelihood of every word seen, and either nothing was
selected or `canary` sits at an index before which every word scores strictly less. -/
def ScanInv (l : List Nat) (st : Nat × ℝ) : Prop :=
  st.2 = looks_like_stack_chk_guard st.1 ∧
  (∀ w, w ∈ l → looks_like_stack_chk_guard w ≤ st.2) ∧
  (st = (0, 0) ∨
    (0 < st.2 ∧ ∃ i : Nat, l[i]? = some st.1 ∧
      ∀ j w : Nat, j < i → l[j]? = some w → looks_like_stack_chk_guard w < st.2))

/-- The body of the scan loop with the test `leak[i] == canary` removed: the
likelihood of every word is computed and compared. -/
noncomputable def scan_step_noskip (st : Nat × ℝ) (w : Nat) : Nat × ℝ :=
  let likelihood := looks_like_stack_chk_guard w
  if likelihood > st.2 then (w, likelihood) else st

/-- The scan loop with the test `leak[i] == canary` removed. -/
noncomputable def scan_noskip (leak : List Nat) : Nat × ℝ :=
  leak.foldl scan_step_noskip (0, 0)

/-- The function `leak_stack_chk_guard` with the test `leak[i] == canary` removed
from its scan loop. -/
noncomputable def leak_stack_chk_guard_noskip (err : Int) (leak : List Nat) (out : Nat) :
    Int × Nat :=
  if err ≠ 0 then (1, out)
  else
    let canary := (scan_noskip leak).1
    if canary = 0 then (2, out)
    else (0, canary)

/-- The number of distinct nibble values among the 16 nibbles of `v`. -/
def distinct_nibbles (v : Nat) : Nat :=
  ((Finset.range 16).filter (fun k => 0 < nibble_count v k)).card

/-- The product of `c_k ^ c_k` over the nibble values `k`, where `c_k` is the number
of nibbles of `v` equal to `k`; the entropy of `v` is `4 - log2(nibble_weight v) / 16`. -/
def nibble_weight (v : Nat) : Nat :=
  ∏ k in Finset.range 16, nibble_count v k ^ nibble_count v k

/-- The byte-order reversal of a 64-bit word: byte `i` of `v` becomes byte `7 - i`. -/
def bswap64 (v : Nat) : Nat :=
  (byte_at v 0 <<< 56) ||| (byte_at v 1 <<< 48) ||| (byte_at v 2 <<< 40) |||
  (byte_at v 3 <<< 32) ||| (byte_at v 4 <<< 24) ||| (byte_at v 5 <<< 16) |||
  (byte_at v 6 <<< 8) ||| byte_at v 7

/-- The nibble position that byte-order reversal moves to position `i`. -/
def bswap_nibble (i : Nat) : Nat := 2 * (7 - i / 2) + i % 2

/-! ## The arithmetic of `float` as a parameter -/

/-- The arithmetic that the program uses on the type `float`, which the repository
does not define: the values `F` with their order, the constant 0, the conversion
`(float)` of an unsigned integer, division, multiplication, subtraction, the libm
function `log2f`, and the constant `2.7f`, which is not negative. -/
structure FloatArith (F : Type) [LinearOrder F] where
  /-- The `float` constant 0. -/
  zero : F
  /-- The conversion of an unsigned integer to `float`. -/
  ofNat : Nat → F
  /-- The `float` division. -/
  div : F → F → F
  /-- The `float` multiplication. -/
  mul : F → F → F
  /-- The `float` subtraction. -/
  sub : F → F → F
  /-- The libm function `log2f`. -/
  log2f : F → F
  /-- The constant `stack_chk_guard_entropy_threshold = 2.7f`. -/
  threshold : F
  /-- The constant `2.7f` is not negative. -/
  zero_le_threshold : zero ≤ threshold

namespace FloatArith

variable {F : Type} [LinearOrder F] (A : FloatArith F)

/-- One iteration of the second loop of `shannon_entropy`:
`if (count[i] > 0) { p = (float) count[i] / n; entropy -= p * log2f(p); }`. -/
def shannon_entropy_step (n : Nat) (count : Nat → Nat) (entropy : F) (i : Nat) : F :=
  if count i > 0 then
    let p : F := A.div (A.ofNat (count i)) (A.ofNat n)
    A.sub entropy (A.mul p (A.log2f p))
  else entropy

/-- The function `shannon_entropy`. -/
def shannon_entropy (value : Nat) : F :=
  let n := 16
  let count := shannon_entropy_count n value (fun _ => 0)
  (List.range 16).foldl (A.shannon_entropy_step n count) A.zero

/-- The function `looks_like_stack_chk_guard`. -/
def looks_like_stack_chk_guard (value : Nat) : F :=
  if value >>> 44 == 0xfffff then A.zero
  else if looks_ascii value then A.zero
  else
    let entropy := A.shannon_entropy value
    if entropy ≤ A.threshold then A.zero
    else entropy

/-- The body of the scan loop of `leak_stack_chk_guard` on the word `leak[i]`,
acting on the pair `(canary, canary_likelihood)`. -/
def scan_step (st : Nat × F) (w : Nat) : Nat × F :=
  if w = st.1 then st
  else
    let likelihood := A.looks_like_stack_chk_guard w
    if likelihood > st.2 then (w, likelihood) else st

/-- The scan loop of `leak_stack_chk_guard` from `canary = 0`,
`canary_likelihood = 0`. -/
def scan (leak : List Nat) : Nat × F :=
  leak.foldl A.scan_step (0, A.zero)

/-- The function `leak_stack_chk_guard`, with `err` the result of `kldstat`, `leak`
the words of `stat.pathname` and `out` the value of `*stack_chk_guard` on entry. -/
def leak_stack_chk_guard (err : Int) (leak : List Nat) (out : Nat) : Int × Nat :=
  if err ≠ 0 then (1, out)
  else
    let canary := (A.scan leak).1
    if canary = 0 then (2, out)
    else (0, canary)

/-- The loop invariant of the scan for the arithmetic `A`: the state holds the
likelihood of `canary`, which bounds the likelihood of every word seen, and either
nothing was selected or `canary` sits at an index before which every word scores
strictly less. -/
def ScanInv (l : List Nat) (st : Nat × F) : Prop :=
  st.2 = A.looks_like_stack_chk_guard st.1 ∧
  (∀ w, w ∈ l → A.looks_like_stack_chk_guard w ≤ st.2) ∧
  (st = (0, A.zero) ∨
    (A.zero < st.2 ∧ ∃ i : Nat, l[i]? = some st.1 ∧
      ∀ j w : Nat, j < i → l[j]? = some w → A.looks_like_stack_chk_guard w < st.2))

/-- The term `p * log2f(p)` of the second loop of `shannon_entropy` for a bucket
holding `c` nibbles: `p = (float) c / 16`. -/
def bucket (c : Nat) : F :=
  A.mul (A.div (A.ofNat c) (A.ofNat 16)) (A.log2f (A.div (A.ofNat c) (A.ofNat 16)))

/-- The statement `entropy -= p * log2f(p)` for a bucket holding `c` nibbles. -/
def accumulate (entropy : F) (c : Nat) : F :=
  A.sub entropy (A.bucket c)

end FloatArith

/-- The exact arithmetic of the reals, with `log2f` the base-2 logarithm and the
threshold 2.7. -/
noncomputable def exact_real : FloatArith ℝ where
  zero := 0
  ofNat := fun n => (n : ℝ)
  div := fun a b => a / b
  mul := fun a b => a * b
  sub := fun a b => a - b
  log2f := log2f
  threshold := stack_chk_guard_entropy_threshold
  zero_le_threshold := by
    unfold stack_chk_guard_entropy_threshold
    norm_num

/-! ## IEEE 754 single precision -/

/-- The rational `2 ^ e` for an integer `e`. -/
def pow2 (e : Int) : ℚ :=
  if 0 ≤ e then ((2 ^ e.toNat : Nat) : ℚ) else 1 / ((2 ^ (-e).toNat : Nat) : ℚ)

/-- The number of binary digits of `n`, by halving; `fuel` bounds the number of steps. -/
def bit_length : Nat → Nat → Nat
  | 0, _ => 0
  | fuel + 1, n => if n = 0 then 0 else bit_length fuel (n / 2) + 1

/-- The exponent of the positive rational `a / d`: the integer `e` with
`2 ^ e ≤ a / d < 2 ^ (e + 1)`, which is the difference of the bit lengths or one less. -/
def binary_exponent (a d : Nat) : Int :=
  let e0 : Int := (bit_length a a : Int) - (bit_length d d : Int)
  if d * 2 ^ e0.toNat ≤ a * 2 ^ (-e0).toNat then e0 else e0 - 1

/-- Rounding of the quotient `n / d` to the nearest integer, ties to the even one. -/
def round_half_even_div (n d : Nat) : Nat :=
  let q := n / d
  let r := n % d
  if 2 * r < d then q
  else if d < 2 * r then q + 1
  else if q % 2 = 0 then q else q + 1

/-- Rounding of a rational to the nearest binary32 value, ties to even. For
`|q| = a / d` with exponent `e`, the unit in the last place is `2 ^ s` with
`s = max e (-126) - 23` (24 significant bits, spacing `2 ^ -149` below `2 ^ -126`),
and the result is `round (|q| / 2 ^ s) * 2 ^ s` with the sign of `q`.
Overflow to infinity is not represented; the program's values stay below 16. -/
def round_binary32 (q : ℚ) : ℚ :=
  if q.num = 0 then 0
  else
    let a := q.num.natAbs
    let d := q.den
    let s := max (binary_exponent a d) (-126) - 23
    let m := round_half_even_div (a * 2 ^ (-s).toNat) (d * 2 ^ s.toNat)
    ((q.num.sign * (m : Int) : Int) : ℚ) * pow2 s

/-- Modelled from the spec: the libm function `log2f` on binary32, which is not part
of the repository, as the binary32 value nearest to the base-2 logarithm, at the
sixteen arguments `c / 16` that `shannon_entropy` passes to it; no other argument
arises, and 0 is returned there. -/
def log2f_binary32 (x : ℚ) : ℚ :=
  if x = 1 / 16 then -4
  else if x = 2 / 16 then -3
  else if x = 3 / 16 then -10129401 / 4194304
  else if x = 4 / 16 then -2
  else if x = 5 / 16 then -14076687 / 8388608
  else if x = 6 / 16 then -11870195 / 8388608
  else if x = 7 / 16 then -1250579 / 1048576
  else if x = 8 / 16 then -1
  else if x = 9 / 16 then -3481587 / 4194304
  else if x = 10 / 16 then -11376159 / 16777216
  else if x = 11 / 16 then -566827 / 1048576
  else if x = 12 / 16 then -3481587 / 8388608
  else if x = 13 / 16 then -10051575 / 33554432
  else if x = 14 / 16 then -202003 / 1048576
  else if x = 15 / 16 then -12496933 / 134217728
  else 0

/-- The arithmetic of IEEE 754 single precision with rounding to nearest even: every
operation is the exact one followed by `round_binary32`. -/
def binary32 : FloatArith ℚ where
  zero := 0
  ofNat := fun n => round_binary32 (n : ℚ)
  div := fun a b => round_binary32 (a / b)
  mul := fun a b => round_binary32 (a * b)
  sub := fun a b => round_binary32 (a - b)
  log2f := log2f_binary32
  threshold := round_binary32 (27 / 10)
  zero_le_threshold := by decide!

/-- The numerators, over `2 ^ 27`, of the single-precision values that the second loop
of `shannon_entropy` can hold once the buckets it has visited contain `k` nibbles in
all; `binary32_reach_closed` checks that the table is closed under the loop body. -/
def binary32_reach_num : Nat → List Nat
  | 0 =>
    [0]
  | 1 =>
    [33554432]
  | 2 =>
    [50331648, 67108864]
  | 3 =>
    [60776408, 83886080, 100663296]
  | 4 =>
    [67108864, 94330840, 100663296, 117440512, 134217728]
  | 5 =>
    [70383432, 100663296, 111108056, 127885272, 134217728, 150994944, 167772160]
  | 6 =>
    [71221168, 103937864, 117440512, 121552816, 134217728, 144662496, 150994944, 161439712,
     167772160, 184549376, 201326592]
  | 7 =>
    [70032424, 104775600, 120715080, 127885272, 137492288, 150994944, 155107248, 161439712,
     167772160, 178216928, 184549376, 194994144, 201326592, 218103808, 234881024]
  | 8 =>
    [67108864, 103586856, 121552816, 131159840, 134217728, 138330032, 154269504, 161439712,
     167772160, 171046720, 171884464, 184549376, 188661680, 194994144, 201326592, 211771360,
     218103808, 228548576, 234881024, 251658240, 268435456]
  | 9 =>
    [62668568, 100663296, 120364072, 131997576, 137141280, 137492288, 155107248, 164714272,
     167772160, 171046720, 171884464, 178216928, 182329216, 187823936, 194994144, 201326592,
     204601152, 205438896, 205438912, 211771360, 218103808, 222216112, 222216128, 228548576,
     234881024, 245325792, 251658240, 262103008, 268435456, 285212672, 301989888]
  | 10 =>
    [56880796, 96223000, 117440512, 130808832, 134217728, 138330032, 140766864, 153918496,
     165552000, 170695712, 171046720, 171884464, 181491488, 184549376, 188661680, 198268704,
     201326592, 204601152, 205438896, 211771360, 215883648, 218103808, 221378368, 222216112,
     222216128, 228548576, 234881024, 238155584, 238993328, 238993344, 245325792, 251658240,
     255770544, 255770560, 262103008, 268435456, 278880224, 285212672, 295657440, 301989888,
     318767104, 335544320]
  | 11 =>
    [49880776, 90435232, 113000216, 127885272, 129777432, 137141280, 141604608, 150994944,
     164363264, 167772160, 170695712, 171884464, 174321296, 182329216, 187472928, 187823936,
     191936256, 194994144, 199106432, 204250144, 204601152, 205438896, 215045920, 218103808,
     221378368, 222216112, 222216128, 228548576, 231823136, 232660864, 234881024, 238155584,
     238993328, 245325792, 249438080, 251658240, 254932800, 255770544, 255770560, 262103008,
     268435456, 271710016, 272547776, 278880224, 285212672, 289324992, 295657440, 301989888,
     312434656, 318767104, 329211872, 335544320, 352321536, 369098752]
  | 12 =>
    [41779044, 83435208, 107212448, 123444976, 123989664, 134217728, 140415856, 142442336,
     146554656, 161439712, 163331872, 167772160, 170695712, 175159040, 181140480, 184549376,
     188661680, 191098512, 192773984, 197917696, 198268704, 201326592, 204250144, 205438896,
     207875712, 207875728, 215883648, 215883664, 221027360, 221378368, 222216112, 225490688,
     228548576, 231823136, 232660864, 232660880, 234881024, 237804576, 238155584, 238993328,
     238993344, 243105632, 248600352, 251658240, 254932800, 255770544, 255770560, 262103008,
     265377568, 266215296, 266215328, 268435456, 271710016, 272547776, 278880224, 282992512,
     282992544, 285212672, 288487232, 289324992, 295657440, 301989888, 305264448, 306102208,
     312434656, 318767104, 322879424, 329211872, 335544320, 345989088, 352321536, 362766304,
     369098752, 385875968, 402653184]
  | 13 =>
    [32667618, 75333472, 100212424, 116989640, 117657200, 129777432, 137492288, 140766880,
     141253600, 156999408, 157544096, 163331872, 167772160, 173970288, 175996768, 178216928,
     180109088, 187472928, 191585248, 191936256, 194994144, 196886304, 199106432, 201326592,
     201543264, 204250144, 204601152, 208713456, 208713472, 214694912, 218103808, 221027360,
     222216112, 224652928, 224652944, 226328416, 231472128, 231823136, 232660864, 232660880,
     234881024, 237804576, 238155584, 238993328, 241430144, 241430160, 242267904, 245325792,
     249438080, 249438096, 254581792, 254932800, 255770544, 259045120, 262103008, 265377568,
     266215296, 266215312, 268435456, 271359008, 271710016, 272547776, 276660064, 278880224,
     282154784, 282992512, 282992544, 285212672, 288487232, 289324992, 295657440, 298932000,
     299769728, 299769760, 301989888, 305264448, 306102208, 312434656, 316546944, 316546976,
     318767104, 322041664, 322879424, 329211872, 335544320, 338818880, 339656640, 345989088,
     352321536, 356433856, 362766304, 369098752, 379543520, 385875968, 396320736, 402653184,
     419430400, 436207616]
  | 14 =>
    [22624336, 66222048, 92110688, 108887904, 110657184, 123989664, 133052000, 133766856,
     138330032, 140064848, 150544064, 151211632, 151211648, 157544096, 163331872, 171046720,
     173776624, 174321312, 174808032, 184549376, 188661680, 190553840, 190747504, 191098528,
     192773984, 196886304, 197917696, 201326592, 202381008, 202381024, 205438896, 207524704,
     207524720, 207875712, 207875728, 209551200, 211771360, 213663520, 218103808, 221027360,
     225139680, 225490672, 225490688, 228548576, 230440736, 231472128, 232660864, 232660880,
     234881024, 235097696, 237804576, 238155584, 238993328, 241430144, 241430160, 242267888,
     242267904, 243105632, 248249344, 248600352, 251658240, 252712640, 252712672, 254581792,
     255770544, 255770560, 258207360, 258207376, 259882848, 265026560, 265377568, 266215296,
     266215312, 268435456, 271359008, 271710016, 272547776, 274984576, 275822336, 278880224,
     282154784, 282992512, 282992544, 285212672, 288136224, 288487232, 289324992, 292599552,
     293437280, 295657440, 298932000, 299769728, 301989888, 304913440, 305264448, 306102208,
     310214496, 312434656, 315709216, 316546944, 316546976, 318767104, 322041664, 322879424,
     329211872, 332486432, 333324160, 333324192, 335544320, 338818880, 339656640, 345989088,
     350101376, 350101408, 352321536, 355596096, 356433856, 362766304, 369098752, 372373312,
     373211072, 379543520, 385875968, 389988288, 396320736, 402653184, 413097952, 419430400,
     429875168, 436207616, 452984832, 469762048]
  | 15 =>
    [11715875, 56178768, 82999264, 99776480, 102555456, 116989640, 125665120, 127264224,
     133889736, 137141280, 142442336, 144211616, 150544064, 157544096, 166606432, 167321280,
     167988848, 167988864, 171884464, 173619280, 180109088, 184098496, 184221376, 184766064,
     184766080, 187823936, 191098528, 191585248, 194994144, 196886304, 201192256, 203218752,
     204250144, 204601152, 207331056, 207331072, 207875744, 208362448, 208362464, 208713456,
     208713472, 211150304, 213663520, 218103808, 222216112, 222216128, 224108272, 224108288,
     224301920, 224301936, 224652960, 226328416, 228548576, 230440736, 231472128, 234881024,
     235935424, 235935440, 235935456, 237804576, 238993328, 241079136, 241079152, 241430144,
     241430160, 241916896, 242267888, 242267904, 243105632, 245325792, 247217952, 249438080,
     249438096, 251658240, 251874912, 253550384, 253550400, 254581792, 254932800, 258694112,
     259045104, 259045120, 262103008, 263995168, 265026560, 266215296, 266215312, 268435456,
     268652128, 271359008, 271710016, 272547776, 274984576, 275822336, 276660064, 276660096,
     281803776, 282154784, 282992512, 285212672, 286267072, 286267104, 288136224, 288487232,
     289324992, 291761792, 292599552, 293437280, 293437312, 295657440, 298580992, 298932000,
     299769728, 299769760, 301989888, 303882048, 304913440, 305264448, 306102208, 308539008,
     309376768, 312434656, 315709216, 316546944, 316546976, 318767104, 321690656, 322041664,
     322879424, 326153984, 326991712, 326991744, 329211872, 332486432, 333324160, 333324192,
     335544320, 338467872, 338818880, 339656640, 343768928, 343768960, 345989088, 349263648,
     350101376, 350101408, 352321536, 355596096, 356433856, 362766304, 366040864, 366878592,
     366878624, 369098752, 372373312, 373211072, 379543520, 383655808, 383655840, 385875968,
     389150528, 389988288, 396320736, 402653184, 405927744, 406765504, 413097952, 419430400,
     423542720, 429875168, 436207616, 446652384, 452984832, 463429600, 469762048, 486539264,
     503316480]
  | 16 =>
    [0, 45270308, 72955984, 89733200, 93444024, 108887904, 116553696, 120264208, 128101968,
     132700992, 133330912, 134217728, 136109888, 142442336, 150544064, 159219552, 160818656,
     160988832, 167444160, 170695712, 174321312, 175996768, 177766048, 178433600, 178433616,
     183383648, 184098496, 188661680, 190396496, 190553840, 191098528, 198268704, 200160864,
     200875712, 201326592, 201543280, 201543296, 202030000, 202030016, 205438896, 207173696,
     207173712, 207524704, 207524720, 207875744, 209551200, 211988032, 213663520, 217652928,
     217775808, 218320496, 218320512, 221378368, 224108272, 224108288, 224652960, 225139664,
     225139680, 228548576, 230440736, 234746688, 234881024, 236773168, 236773184, 237804576,
     238155584, 238993328, 238993344, 240885488, 240885504, 241079136, 241079152, 241430176,
     241916880, 241916896, 242267888, 242267904, 243105632, 244704736, 247217952, 248249344,
     251658240, 252361632, 252361664, 252712640, 252712656, 252712672, 255770544, 255770560,
     257662704, 257662720, 257856352, 257856368, 258207360, 258207376, 258207392, 259882848,
     262103008, 262319680, 263995168, 265026560, 265377568, 268435456, 269489856, 269489888,
     271359008, 272547776, 274633568, 274633600, 274984576, 275471328, 275822336, 276660064,
     278880224, 280772384, 281803776, 282992512, 285212672, 285429344, 287104832, 288136224,
     288487232, 289324992, 291761792, 292248544, 292599552, 293437280, 293437312, 295657440,
     297549600, 298580992, 298932000, 299769728, 301989888, 302206560, 303044288, 303044320,
     304913440, 305264448, 306102208, 308539008, 309376768, 310214496, 310214528, 315358208,
     315709216, 316546944, 318767104, 319821504, 319821536, 321690656, 322041664, 322879424,
     325316224, 326153984, 326991712, 326991744, 329211872, 332135424, 332486432, 333324160,
     333324192, 335544320, 337436480, 338467872, 338818880, 339656640, 342093440, 342931200,
     343768928, 343768960, 345989088, 349263648, 350101376, 350101408, 352321536, 355245088,
     355596096, 356433856, 359708416, 360546144, 360546176, 362766304, 366040864, 366878592,
     366878624, 369098752, 372022304, 372373312, 373211072, 377323360, 377323392, 379543520,
     382818080, 383655808, 383655840, 385875968, 389150528, 389988288, 396320736, 399595296,
     400433024, 400433056, 402653184, 405927744, 406765504, 413097952, 417210240, 417210272,
     419430400, 422704960, 423542720, 429875168, 436207616, 439482176, 440319936, 446652384,
     452984832, 457097152, 463429600, 469762048, 480206816, 486539264, 496984032, 503316480,
     520093696, 536870912]
  | _ => []

/-- The single-precision value of `p * log2f(p)` for a bucket of `c` nibbles, `p = c / 16`. -/
def binary32_bucket_table (c : Nat) : ℚ :=
  if c = 1 then -1 / 4
  else if c = 2 then -3 / 8
  else if c = 3 then -7597051 / 16777216
  else if c = 4 then -1 / 2
  else if c = 5 then -8797929 / 16777216
  else if c = 6 then -4451323 / 8388608
  else if c = 7 then -8754053 / 16777216
  else if c = 8 then -1 / 2
  else if c = 9 then -7833571 / 16777216
  else if c = 10 then -14220199 / 33554432
  else if c = 11 then -6235097 / 16777216
  else if c = 12 then -10444761 / 33554432
  else if c = 13 then -16333809 / 67108864
  else if c = 14 then -1414021 / 8388608
  else if c = 15 then -11715875 / 134217728
  else 0

/-- The single-precision values of the table `binary32_reach_num`. -/
def binary32_reach (k : Nat) : List ℚ :=
  (binary32_reach_num k).map (fun (n : Nat) => (n : ℚ) / 134217728)

/-- The loop body `entropy -= p * log2f(p)` in single precision on the value
`n / 2 ^ 27` for a bucket of `c` nibbles: the numerator over `2 ^ 27` of the result,
when the result is such a non-negative multiple. -/
def binary32_next (n c : Nat) : Option Nat :=
  let x := round_binary32 ((n : ℚ) / 134217728 - binary32_bucket_table c) * 134217728
  if x.den = 1 ∧ 0 ≤ x.num then some x.num.toNat else none

/-- The check that each member of `xs` is a defined number that occurs in `ys`, by one
pass over both lists, which are in increasing order; `fuel` bounds the number of steps. -/
def all_found : Nat → List (Option Nat) → List Nat → Bool
  | _, [], _ => true
  | 0, _ :: _, _ => false
  | _ + 1, none :: _, _ => false
  | _ + 1, some _ :: _, [] => false
  | fuel + 1, some x :: xs, y :: ys =>
    if x = y then all_found fuel xs (y :: ys) else all_found fuel (some x :: xs) ys

/-- The check that `binary32_reach k` holds the result of the loop body on every value
of `binary32_reach (k - c)` and every bucket size `c` from 1 to `k`. -/
def binary32_reach_closed (k : Nat) : Bool :=
  (List.range k).all (fun d =>
    all_found ((binary32_reach_num (k - 1 - d)).length + (binary32_reach_num k).length)
      ((binary32_reach_num (k - 1 - d)).map (fun n => binary32_next n (d + 1)))
      (binary32_reach_num k))

/-! ## Lemmas -/

/-! ### shannon_entropy -/

theorem nibble_at_zero (v : Nat) : nibble_at v 0 = v &&& 0xf := by
  simp [nibble_at]

theorem nibble_at_shift (v j : Nat) : nibble_at (v >>> 4) j = nibble_at v (j + 1) := by
  simp only [nibble_at, ← Nat.shiftRight_add]
  congr 2
  omega

theorem nibble_at_lt (v i : Nat) : nibble_at v i < 16 := by
  unfold nibble_at
  exact Nat.and_lt_two_pow _ (by norm_num : (0xf : Nat) < 2 ^ 4)

theorem count_incr_le (count : Nat → Nat) (nibble k : Nat) :
    count_incr count nibble k ≤ count k + 1 := by
  unfold count_incr
  split
  · exact Nat.mod_le _ _
  · omega

theorem shannon_entropy_count_eq (i : Nat) :
    ∀ (v : Nat) (count : Nat → Nat), (∀ k, count k + i < 256) → ∀ k,
      shannon_entropy_count i v count k
        = count k + (List.range i).countP (fun j => nibble_at v j == k) := by
  induction i with
  | zero => intro v count _ k; simp [shannon_entropy_count]
  | succ i ih =>
    intro v count hc k
    have hc2 : ∀ k, count_incr count (v &&& 0xf) k + i < 256 := by
      intro k
      have := count_incr_le count (v &&& 0xf) k
      have := hc k
      omega
    simp only [shannon_entropy_count]
    rw [ih (v >>> 4) _ hc2 k, List.range_succ_eq_map, List.countP_cons, List.countP_map]
    have hfun : ((fun j => nibble_at v j == k) ∘ Nat.succ)
        = (fun j => nibble_at (v >>> 4) j == k) := by
      funext j
      simp [nibble_at_shift]
    rw [hfun, nibble_at_zero]
    have hk := hc k
    unfold count_incr
    by_cases h : k = v &&& 0xf
    · subst h
      simp
      rw [Nat.mod_eq_of_lt (by omega)]
      omega
    · have h2 : ¬ (v &&& 0xf) = k := fun e => h e.symm
      simp [h, h2]

theorem shannon_entropy_hist_eq (v k : Nat) :
    shannon_entropy_count 16 v (fun _ => 0) k = nibble_count v k := by
  unfold nibble_count
  rw [shannon_entropy_count_eq 16 v _ (by intro k; norm_num) k]
  simp

theorem nibble_count_sum_aux (v i : Nat) :
    ∑ k in Finset.range 16, (List.range i).countP (fun j => nibble_at v j == k) = i := by
  induction i with
  | zero => simp
  | succ i ih =>
    simp only [List.range_succ, List.countP_append, Finset.sum_add_distrib, ih,
      List.countP_singleton, beq_iff_eq]
    rw [Finset.sum_ite_eq]
    simp [nibble_at_lt]

theorem nibble_count_sum (v : Nat) : ∑ k in Finset.range 16, nibble_count v k = 16 :=
  nibble_count_sum_aux v 16

theorem nibble_count_le (v k : Nat) : nibble_count v k ≤ 16 := by
  unfold nibble_count
  have := List.countP_le_length (fun i => nibble_at v i == k) (l := List.range 16)
  simpa using this

theorem foldl_shannon_entropy_step (m : Nat) (count : Nat → Nat) (n : Nat) (e : ℝ) :
    (List.range n).foldl (shannon_entropy_step m count) e
      = e - ∑ i in Finset.range n, bucket_term m (count i) := by
  induction n with
  | zero => simp
  | succ n ih =>
    rw [List.range_succ, List.foldl_append, ih, Finset.sum_range_succ]
    simp only [List.foldl_cons, List.foldl_nil, shannon_entropy_step, bucket_term]
    split <;> ring

theorem shannon_entropy_eq_sum (v : Nat) :
    shannon_entropy v = - ∑ k in Finset.range 16, bucket_term 16 (nibble_count v k) := by
  unfold shannon_entropy
  simp only []
  rw [foldl_shannon_entropy_step]
  have h : ∀ k, shannon_entropy_count 16 v (fun _ => 0) k = nibble_count v k :=
    shannon_entropy_hist_eq v
  simp only [h]
  ring

theorem bucket_term_nonpos (c : Nat) (hc : c ≤ 16) : bucket_term 16 c ≤ 0 := by
  unfold bucket_term log2f
  split
  · rename_i h
    have hc1 : (1 : ℝ) ≤ (c : ℝ) := by exact_mod_cast h
    have hc2 : (c : ℝ) ≤ 16 := by exact_mod_cast hc
    have hp : 0 < (c : ℝ) / ((16 : Nat) : ℝ) := by push_cast; positivity
    have hp1 : (c : ℝ) / ((16 : Nat) : ℝ) ≤ 1 := by
      push_cast
      rw [div_le_one (by norm_num)]
      exact hc2
    have hl : Real.logb 2 ((c : ℝ) / ((16 : Nat) : ℝ)) ≤ 0 :=
      Real.logb_nonpos (by norm_num) hp.le hp1
    exact mul_nonpos_of_nonneg_of_nonpos hp.le hl
  · exact le_refl _

theorem logb_two_sixteen : Real.logb 2 16 = 4 := by
  have h : (16 : ℝ) = 2 ^ (4 : ℕ) := by norm_num
  rw [h, Real.logb_pow]
  simp

theorem bucket_term_ge (c : Nat) : -(4 * ((c : ℝ) / 16)) ≤ bucket_term 16 c := by
  unfold bucket_term log2f
  split
  · rename_i h
    have hc1 : (1 : ℝ) ≤ (c : ℝ) := by exact_mod_cast h
    have hc0 : (c : ℝ) ≠ 0 := by positivity
    have hl : Real.logb 2 ((c : ℝ) / ((16 : Nat) : ℝ)) = Real.logb 2 c - 4 := by
      push_cast
      rw [Real.logb_div hc0 (by norm_num), logb_two_sixteen]
    have hlc : 0 ≤ Real.logb 2 (c : ℝ) := Real.logb_nonneg (by norm_num) hc1
    rw [hl]
    push_cast
    have hp : 0 ≤ (c : ℝ) / 16 := by positivity
    nlinarith
  · have : (0 : ℝ) ≤ (c : ℝ) / 16 := by positivity
    linarith

theorem shannon_entropy_nonneg (v : Nat) : 0 ≤ shannon_entropy v := by
  rw [shannon_entropy_eq_sum, neg_nonneg]
  exact Finset.sum_nonpos (fun k _ => bucket_term_nonpos _ (nibble_count_le v k))

theorem shannon_entropy_le_four (v : Nat) : shannon_entropy v ≤ 4 := by
  rw [shannon_entropy_eq_sum, ← Finset.sum_neg_distrib]
  have h1 : ∑ k in Finset.range 16, -bucket_term 16 (nibble_count v k)
      ≤ ∑ k in Finset.range 16, 4 * ((nibble_count v k : ℝ) / 16) :=
    Finset.sum_le_sum (fun k _ => by have := bucket_term_ge (nibble_count v k); linarith)
  have h2 : ∑ k in Finset.range 16, 4 * ((nibble_count v k : ℝ) / 16) = 4 := by
    rw [← Finset.mul_sum, ← Finset.sum_div]
    have := nibble_count_sum v
    have h3 : ∑ k in Finset.range 16, (nibble_count v k : ℝ) = 16 := by exact_mod_cast this
    rw [h3]
    norm_num
  linarith

theorem shannon_entropy_eq_ref (v : Nat) : shannon_entropy v = entropy_ref v := by
  rw [shannon_entropy_eq_sum, entropy_ref, Finset.sum_filter, ← Finset.sum_neg_distrib]
  refine Finset.sum_congr rfl (fun k _ => ?_)
  unfold bucket_term log2f
  split
  · push_cast
    ring
  · simp

/-! ### looks_ascii -/

theorem isascii_iff (c : Nat) : isascii c = true ↔ c ≤ 0x7f := by
  unfold isascii
  rw [beq_iff_eq]
  omega

theorem zero_test_absorbed (byte : Nat) : (byte == 0 || isascii byte) = isascii byte := by
  by_cases h : byte = 0
  · subst h
    decide
  · simp [h]

theorem byte_at_zero (v : Nat) : byte_at v 0 = v &&& 0xff := by
  simp [byte_at]

theorem byte_at_shift (v j : Nat) : byte_at (v >>> 8) j = byte_at v (j + 1) := by
  simp only [byte_at, ← Nat.shiftRight_add]
  congr 2
  omega

theorem looks_ascii_loop_eq (i : Nat) :
    ∀ (v ascii : Nat), looks_ascii_loop i v ascii
      = ascii + (List.range i).countP (fun j => isascii (byte_at v j)) := by
  induction i with
  | zero => intro v ascii; simp [looks_ascii_loop]
  | succ i ih =>
    intro v ascii
    simp only [looks_ascii_loop]
    rw [ih, List.range_succ_eq_map, List.countP_cons, List.countP_map, zero_test_absorbed]
    have hfun : ((fun j => isascii (byte_at v j)) ∘ Nat.succ)
        = (fun j => isascii (byte_at (v >>> 8) j)) := by
      funext j
      simp [byte_at_shift]
    rw [hfun, byte_at_zero]
    cases isascii (v &&& 0xff) <;> simp
    omega

theorem looks_ascii_iff_bytes (v : Nat) :
    looks_ascii v = true ↔ ∀ i, i < 8 → byte_at v i ≤ 0x7f := by
  unfold looks_ascii
  rw [looks_ascii_loop_eq, beq_iff_eq, Nat.zero_add]
  have hlen : (List.range 8).length = 8 := List.length_range 8
  constructor
  · intro h i hi
    have h2 : (List.range 8).countP (fun j => isascii (byte_at v j)) = (List.range 8).length := by
      rw [h, hlen]
    rw [List.countP_eq_length] at h2
    exact (isascii_iff _).1 (h2 i (List.mem_range.2 hi))
  · intro h
    have h2 : (List.range 8).countP (fun j => isascii (byte_at v j)) = (List.range 8).length := by
      rw [List.countP_eq_length]
      intro i hi
      exact (isascii_iff _).2 (h i (List.mem_range.1 hi))
    rw [h2, hlen]

theorem byte_at_le_iff (v i : Nat) : byte_at v i ≤ 0x7f ↔ v.testBit (8 * i + 7) = false := by
  have h1 : (byte_at v i).testBit 7 = v.testBit (8 * i + 7) := by
    unfold byte_at
    rw [Nat.testBit_and, Nat.testBit_shiftRight]
    have : Nat.testBit 0xff 7 = true := by decide
    rw [this, Bool.and_true]
  have h2 : byte_at v i < 256 := by
    unfold byte_at
    exact Nat.and_lt_two_pow _ (by norm_num : (0xff : Nat) < 2 ^ 8)
  rw [← h1, Nat.testBit_to_div_mod]
  simp only [decide_eq_false_iff_not]
  omega

theorem high_bits_mask_testBit :
    ∀ n, n < 64 → (Nat.testBit 0x8080808080808080 n = true ↔ n % 8 = 7) := by
  decide

theorem and_high_bits_iff (v : Nat) :
    v &&& 0x8080808080808080 = 0 ↔ ∀ i, i < 8 → v.testBit (8 * i + 7) = false := by
  constructor
  · intro h i hi
    have h1 : (v &&& 0x8080808080808080).testBit (8 * i + 7) = false := by
      rw [h]
      exact Nat.zero_testBit _
    rw [Nat.testBit_and] at h1
    have h2 : Nat.testBit 0x8080808080808080 (8 * i + 7) = true :=
      (high_bits_mask_testBit (8 * i + 7) (by omega)).2 (by omega)
    rw [h2, Bool.and_true] at h1
    exact h1
  · intro h
    apply Nat.eq_of_testBit_eq
    intro n
    rw [Nat.testBit_and, Nat.zero_testBit]
    by_cases hn : n < 64
    · by_cases hm : n % 8 = 7
      · have : n = 8 * (n / 8) + 7 := by omega
        rw [this, h (n / 8) (by omega)]
        rfl
      · have h2 : Nat.testBit 0x8080808080808080 n = false := by
          have := high_bits_mask_testBit n hn
          cases hb : Nat.testBit 0x8080808080808080 n
          · rfl
          · exact absurd (this.1 hb) hm
        rw [h2, Bool.and_false]
    · have h2 : Nat.testBit 0x8080808080808080 n = false := by
        apply Nat.testBit_lt_two_pow
        calc (0x8080808080808080 : Nat) < 2 ^ 64 := by norm_num
          _ ≤ 2 ^ n := Nat.pow_le_pow_right (by norm_num) (by omega)
      rw [h2, Bool.and_false]

theorem looks_ascii_iff_mask (v : Nat) :
    looks_ascii v = true ↔ v &&& 0x8080808080808080 = 0 := by
  rw [looks_ascii_iff_bytes, and_high_bits_iff]
  constructor
  · intro h i hi
    exact (byte_at_le_iff v i).1 (h i hi)
  · intro h i hi
    exact (byte_at_le_iff v i).2 (h i hi)

/-! ### The kernel-pointer test -/

theorem kernel_pointer_iff_ge (v : Nat) (hv : v < 2 ^ 64) :
    v >>> 44 = 0xfffff ↔ 0xFFFFF00000000000 ≤ v := by
  rw [Nat.shiftRight_eq_div_pow]
  omega

theorem kernel_pointer_iff_bits (v : Nat) (hv : v < 2 ^ 64) :
    v >>> 44 = 0xfffff ↔ ∀ i, 44 ≤ i → i < 64 → v.testBit i = true := by
  have hlt : v >>> 44 < 2 ^ 20 := by
    rw [Nat.shiftRight_eq_div_pow]
    omega
  have hm : (0xfffff : Nat) = 2 ^ 20 - 1 := by norm_num
  constructor
  · intro h i h1 h2
    have h3 : (v >>> 44).testBit (i - 44) = true := by
      rw [h, hm, Nat.testBit_two_pow_sub_one]
      exact decide_eq_true (by omega)
    rw [Nat.testBit_shiftRight] at h3
    have : 44 + (i - 44) = i := by omega
    rw [this] at h3
    exact h3
  · intro h
    apply Nat.eq_of_testBit_eq
    intro j
    rw [hm, Nat.testBit_two_pow_sub_one, Nat.testBit_shiftRight]
    by_cases hj : j < 20
    · rw [h (44 + j) (by omega) (by omega)]
      exact (decide_eq_true hj).symm
    · rw [decide_eq_false hj]
      apply Nat.testBit_lt_two_pow
      calc v < 2 ^ 64 := hv
        _ ≤ 2 ^ (44 + j) := Nat.pow_le_pow_right (by norm_num) (by omega)

/-! ### looks_like_stack_chk_guard -/

theorem looks_ascii_zero : looks_ascii 0 = true := by decide

theorem lsg_kernel_pointer (v : Nat) (h : v >>> 44 = 0xfffff) :
    looks_like_stack_chk_guard v = 0 := by
  simp [looks_like_stack_chk_guard, h]

theorem lsg_ascii (v : Nat) (h : looks_ascii v = true) :
    looks_like_stack_chk_guard v = 0 := by
  simp [looks_like_stack_chk_guard, h]

theorem lsg_low_entropy (v : Nat) (h : shannon_entropy v ≤ 2.7) :
    looks_like_stack_chk_guard v = 0 := by
  simp [looks_like_stack_chk_guard, stack_chk_guard_entropy_threshold, h]

theorem lsg_accept (v : Nat) (h1 : ¬ v >>> 44 = 0xfffff) (h2 : looks_ascii v = false)
    (h3 : 2.7 < shannon_entropy v) :
    looks_like_stack_chk_guard v = shannon_entropy v := by
  simp [looks_like_stack_chk_guard, stack_chk_guard_entropy_threshold, h1, h2, not_le.2 h3]

theorem lsg_zero : looks_like_stack_chk_guard 0 = 0 := lsg_ascii 0 looks_ascii_zero

theorem lsg_pos_iff (v : Nat) :
    0 < looks_like_stack_chk_guard v ↔
      (¬ v >>> 44 = 0xfffff ∧ looks_ascii v = false ∧ 2.7 < shannon_entropy v) := by
  constructor
  · intro h
    by_cases h1 : v >>> 44 = 0xfffff
    · rw [lsg_kernel_pointer v h1] at h
      exact absurd h (lt_irrefl _)
    · cases h2 : looks_ascii v
      · by_cases h3 : shannon_entropy v ≤ 2.7
        · rw [lsg_low_entropy v h3] at h
          exact absurd h (lt_irrefl _)
        · exact ⟨h1, rfl, not_le.1 h3⟩
      · rw [lsg_ascii v h2] at h
        exact absurd h (lt_irrefl _)
  · rintro ⟨h1, h2, h3⟩
    rw [lsg_accept v h1 h2 h3]
    have : (0 : ℝ) < 2.7 := by norm_num
    linarith

theorem lsg_nonneg (v : Nat) : 0 ≤ looks_like_stack_chk_guard v := by
  by_cases h : 0 < looks_like_stack_chk_guard v
  · exact h.le
  · have h1 := (lsg_pos_iff v).not.1 h
    by_cases a : v >>> 44 = 0xfffff
    · rw [lsg_kernel_pointer v a]
    · cases b : looks_ascii v
      · by_cases c : shannon_entropy v ≤ 2.7
        · rw [lsg_low_entropy v c]
        · exact absurd ⟨a, b, not_le.1 c⟩ h1
      · rw [lsg_ascii v b]

theorem lsg_eq_zero_or_entropy (v : Nat) :
    looks_like_stack_chk_guard v = 0 ∨
      looks_like_stack_chk_guard v = shannon_entropy v := by
  by_cases a : v >>> 44 = 0xfffff
  · exact Or.inl (lsg_kernel_pointer v a)
  · cases b : looks_ascii v
    · by_cases c : shannon_entropy v ≤ 2.7
      · exact Or.inl (lsg_low_entropy v c)
      · exact Or.inr (lsg_accept v a b (not_le.1 c))
    · exact Or.inl (lsg_ascii v b)

/-! ### The scan loop -/

theorem scanInv_nil : ScanInv [] (0, 0) :=
  ⟨lsg_zero.symm, by simp, Or.inl rfl⟩

theorem scanInv_step (l : List Nat) (st : Nat × ℝ) (w : Nat) (h : ScanInv l st) :
    ScanInv (l ++ [w]) (scan_step st w) := by
  obtain ⟨h1, h2, h3⟩ := h
  have keep : (∀ x, x ∈ l ++ [w] → looks_like_stack_chk_guard x ≤ st.2) →
      ScanInv (l ++ [w]) st := by
    intro hb
    refine ⟨h1, hb, ?_⟩
    rcases h3 with h3 | ⟨hpos, i, hi, hlt⟩
    · exact Or.inl h3
    · refine Or.inr ⟨hpos, i, ?_, ?_⟩
      · have hil : i < l.length := by
          by_contra hc
          rw [List.getElem?_eq_none (by omega)] at hi
          exact absurd hi (by simp)
        rw [List.getElem?_append_left hil]
        exact hi
      · intro j x hj hx
        have hil : i < l.length := by
          by_contra hc
          rw [List.getElem?_eq_none (by omega)] at hi
          exact absurd hi (by simp)
        rw [List.getElem?_append_left (by omega)] at hx
        exact hlt j x hj hx
  unfold scan_step
  by_cases hw : w = st.1
  · rw [if_pos hw]
    apply keep
    intro x hx
    rcases List.mem_append.1 hx with hx | hx
    · exact h2 x hx
    · rw [List.mem_singleton] at hx
      rw [hx, hw, h1]
  · rw [if_neg hw]
    by_cases hgt : looks_like_stack_chk_guard w > st.2
    · simp only [hgt, if_true]
      have hnn : 0 ≤ st.2 := by rw [h1]; exact lsg_nonneg _
      refine ⟨rfl, ?_, Or.inr ⟨lt_of_le_of_lt hnn hgt, l.length, ?_, ?_⟩⟩
      · intro x hx
        rcases List.mem_append.1 hx with hx | hx
        · exact le_trans (h2 x hx) hgt.le
        · rw [List.mem_singleton] at hx
          rw [hx]
      · simp
      · intro j x hj hx
        rw [List.getElem?_append_left hj] at hx
        have hmem : x ∈ l := List.getElem?_mem hx
        exact lt_of_le_of_lt (h2 x hmem) hgt
    · simp only [hgt, if_false]
      apply keep
      intro x hx
      rcases List.mem_append.1 hx with hx | hx
      · exact h2 x hx
      · rw [List.mem_singleton] at hx
        rw [hx]
        exact not_lt.1 hgt

theorem scanInv_foldl (l2 : List Nat) :
    ∀ (l1 : List Nat) (st : Nat × ℝ), ScanInv l1 st →
      ScanInv (l1 ++ l2) (l2.foldl scan_step st) := by
  induction l2 with
  | nil => intro l1 st h; simpa using h
  | cons w l2 ih =>
    intro l1 st h
    have := ih (l1 ++ [w]) (scan_step st w) (scanInv_step l1 st w h)
    simpa using this

theorem scanInv_scan (leak : List Nat) : ScanInv leak (scan leak) := by
  have := scanInv_foldl leak [] (0, 0) scanInv_nil
  simpa [scan] using this

/-! ### Evaluation on concrete words -/

theorem bucket_term_zero : bucket_term 16 0 = 0 := by
  simp [bucket_term, log2f]

theorem bucket_term_one : bucket_term 16 1 = -(1 / 4) := by
  have h : Real.logb 2 ((1 : ℝ) / 16) = -4 := by
    rw [Real.logb_div (by norm_num) (by norm_num), logb_two_sixteen, Real.logb_one]
    norm_num
  simp only [bucket_term, log2f, Nat.cast_one, Nat.cast_ofNat, gt_iff_lt, Nat.lt_one_iff,
    Nat.zero_lt_one, if_true, h]
  norm_num

theorem bucket_term_two : bucket_term 16 2 = -(3 / 8) := by
  have h : Real.logb 2 ((2 : ℝ) / 16) = -3 := by
    rw [Real.logb_div (by norm_num) (by norm_num), logb_two_sixteen, Real.logb_self_eq_one
      (by norm_num)]
    norm_num
  have h2 : (2 : Nat) > 0 := by norm_num
  simp only [bucket_term, log2f, Nat.cast_ofNat, h2, if_true, h]
  norm_num

theorem bucket_term_sixteen : bucket_term 16 16 = 0 := by
  simp [bucket_term, log2f]

theorem shannon_entropy_pairs : shannon_entropy 0x1122334455667788 = 3 := by
  have h : ∀ k, k ∈ Finset.range 16 →
      bucket_term 16 (nibble_count 0x1122334455667788 k)
        = bucket_term 16 (if 1 ≤ k ∧ k ≤ 8 then 2 else 0) := by
    intro k hk
    have hd : ∀ k, k < 16 →
        nibble_count 0x1122334455667788 k = if 1 ≤ k ∧ k ≤ 8 then 2 else 0 := by decide
    rw [hd k (Finset.mem_range.1 hk)]
  rw [shannon_entropy_eq_sum, Finset.sum_congr rfl h]
  simp only [Finset.sum_range_succ, Finset.sum_range_zero]
  norm_num [bucket_term_zero, bucket_term_two]

theorem shannon_entropy_all_distinct : shannon_entropy 0x0123456789ABCDEF = 4 := by
  have h : ∀ k, k ∈ Finset.range 16 →
      bucket_term 16 (nibble_count 0x0123456789ABCDEF k) = bucket_term 16 1 := by
    intro k hk
    have hd : ∀ k, k < 16 → nibble_count 0x0123456789ABCDEF k = 1 := by decide
    rw [hd k (Finset.mem_range.1 hk)]
  rw [shannon_entropy_eq_sum, Finset.sum_congr rfl h]
  simp only [Finset.sum_const, Finset.card_range, bucket_term_one]
  norm_num

theorem lsg_pairs : looks_like_stack_chk_guard 0x1122334455667788 = 3 := by
  rw [lsg_accept _ (by decide) (by decide) (by rw [shannon_entropy_pairs]; norm_num)]
  exact shannon_entropy_pairs

theorem lsg_all_distinct : looks_like_stack_chk_guard 0x0123456789ABCDEF = 4 := by
  rw [lsg_accept _ (by decide) (by decide) (by rw [shannon_entropy_all_distinct]; norm_num)]
  exact shannon_entropy_all_distinct

theorem shannon_entropy_all_distinct_rev : shannon_entropy 0xFEDCBA9876543210 = 4 := by
  have h : ∀ k, k ∈ Finset.range 16 →
      bucket_term 16 (nibble_count 0xFEDCBA9876543210 k) = bucket_term 16 1 := by
    intro k hk
    have hd : ∀ k, k < 16 → nibble_count 0xFEDCBA9876543210 k = 1 := by decide
    rw [hd k (Finset.mem_range.1 hk)]
  rw [shannon_entropy_eq_sum, Finset.sum_congr rfl h]
  simp only [Finset.sum_const, Finset.card_range, bucket_term_one]
  norm_num

theorem lsg_all_distinct_rev : looks_like_stack_chk_guard 0xFEDCBA9876543210 = 4 := by
  rw [lsg_accept _ (by decide) (by decide) (by rw [shannon_entropy_all_distinct_rev]; norm_num)]
  exact shannon_entropy_all_distinct_rev

theorem scan_step_skip (c w : Nat) (t : ℝ) (h : w = c) : scan_step (c, t) w = (c, t) := by
  simp [scan_step, h]

theorem scan_step_take (c w : Nat) (t s : ℝ) (hs : looks_like_stack_chk_guard w = s)
    (h : w ≠ c) (h2 : t < s) : scan_step (c, t) w = (w, s) := by
  simp [scan_step, h, hs, h2]

theorem scan_step_keep (c w : Nat) (t s : ℝ) (hs : looks_like_stack_chk_guard w = s)
    (h2 : s ≤ t) : scan_step (c, t) w = (c, t) := by
  simp [scan_step, hs, not_lt.2 h2]

theorem leak_success_iff (err : Int) (leak : List Nat) (out canary : Nat) :
    leak_stack_chk_guard err leak out = (0, canary) ↔
      err = 0 ∧ (scan leak).1 = canary ∧ canary ≠ 0 := by
  unfold leak_stack_chk_guard
  by_cases he : err = 0
  · by_cases hc : (scan leak).1 = 0
    · simp only [he, hc, ne_eq, not_true, if_false, if_true, Prod.mk.injEq]
      constructor
      · intro h
        exact absurd h.1 (by norm_num)
      · rintro ⟨_, h1, h2⟩
        exact absurd h1.symm h2
    · simp only [he, hc, ne_eq, not_true, if_false, Prod.mk.injEq, true_and]
      constructor
      · intro h
        exact ⟨h, fun e => hc (h.trans e)⟩
      · intro h
        exact h.1
  · simp only [he, ne_eq, not_false_eq_true, if_true, Prod.mk.injEq, false_and, iff_false]
    intro h
    exact absurd h.1 (by norm_num)

theorem scan_canary_mem (leak : List Nat) (h : (scan leak).1 ≠ 0) : (scan leak).1 ∈ leak := by
  obtain ⟨_, _, h3⟩ := scanInv_scan leak
  rcases h3 with h3 | ⟨_, i, hi, _⟩
  · rw [h3] at h
    exact absurd rfl h
  · exact List.getElem?_mem hi

theorem scan_canary_max (leak : List Nat) (w : Nat) (hw : w ∈ leak) :
    looks_like_stack_chk_guard w ≤ looks_like_stack_chk_guard (scan leak).1 := by
  obtain ⟨h1, h2, _⟩ := scanInv_scan leak
  rw [← h1]
  exact h2 w hw

theorem scan_canary_pos (leak : List Nat) (h : (scan leak).1 ≠ 0) :
    0 < looks_like_stack_chk_guard (scan leak).1 := by
  obtain ⟨h1, _, h3⟩ := scanInv_scan leak
  rcases h3 with h3 | ⟨hpos, _⟩
  · rw [h3] at h
    exact absurd rfl h
  · rw [← h1]
    exact hpos

theorem scan_canary_eq_zero_iff (leak : List Nat) :
    (scan leak).1 = 0 ↔ ∀ w, w ∈ leak → looks_like_stack_chk_guard w = 0 := by
  constructor
  · intro h w hw
    have := scan_canary_max leak w hw
    rw [h, lsg_zero] at this
    exact le_antisymm this (lsg_nonneg w)
  · intro h
    by_contra hc
    have h1 := scan_canary_pos leak hc
    rw [h _ (scan_canary_mem leak hc)] at h1
    exact absurd h1 (lt_irrefl _)

theorem leak_ret_two_iff (leak : List Nat) (out : Nat) :
    (leak_stack_chk_guard 0 leak out).1 = 2 ↔ (scan leak).1 = 0 := by
  unfold leak_stack_chk_guard
  by_cases hc : (scan leak).1 = 0
  · simp [hc]
  · simp [hc]

theorem leak_ret_zero_iff (leak : List Nat) (out : Nat) :
    (leak_stack_chk_guard 0 leak out).1 = 0 ↔ (scan leak).1 ≠ 0 := by
  unfold leak_stack_chk_guard
  by_cases hc : (scan leak).1 = 0
  · simp [hc]
  · simp [hc]

theorem lsg_eq_zero_iff (w : Nat) :
    looks_like_stack_chk_guard w = 0 ↔
      (w >>> 44 = 0xfffff ∨ looks_ascii w = true ∨ shannon_entropy w ≤ 2.7) := by
  constructor
  · intro h
    by_contra hc
    push_neg at hc
    obtain ⟨a, b, c⟩ := hc
    have := (lsg_pos_iff w).2 ⟨a, by simpa using b, c⟩
    rw [h] at this
    exact absurd this (lt_irrefl _)
  · rintro (h | h | h)
    · exact lsg_kernel_pointer w h
    · exact lsg_ascii w h
    · exact lsg_low_entropy w h

theorem nibble_count_const (v k : Nat) (h : ∀ i, i < 16 → nibble_at v i = nibble_at v 0) :
    nibble_count v k = if k = nibble_at v 0 then 16 else 0 := by
  unfold nibble_count
  split
  · rename_i hk
    have h2 : (List.range 16).countP (fun i => nibble_at v i == k) = (List.range 16).length := by
      rw [List.countP_eq_length]
      intro i hi
      rw [beq_iff_eq, h i (List.mem_range.1 hi), hk]
    rw [h2, List.length_range]
  · rename_i hk
    rw [List.countP_eq_zero]
    intro i hi
    rw [beq_iff_eq, h i (List.mem_range.1 hi)]
    exact fun e => hk e.symm

theorem shannon_entropy_const (v : Nat) (h : ∀ i, i < 16 → nibble_at v i = nibble_at v 0) :
    shannon_entropy v = 0 := by
  rw [shannon_entropy_eq_sum, neg_eq_zero]
  apply Finset.sum_eq_zero
  intro k _
  rw [nibble_count_const v k h]
  split
  · exact bucket_term_sixteen
  · exact bucket_term_zero

theorem repeated_nibble_const :
    ∀ k, k < 16 → ∀ i, i < 16 →
      nibble_at (k * 0x1111111111111111) i = nibble_at (k * 0x1111111111111111) 0 := by
  decide

/-! ## The claims -/

/-- Claim C1: when `leak_stack_chk_guard` succeeds, the value it stores is one of
the words of the buffer and no word of the buffer has a greater likelihood. -/
theorem selected_word_is_maximal (err : Int) (leak : List Nat) (out canary : Nat)
    (h : leak_stack_chk_guard err leak out = (0, canary)) :
    canary ∈ leak ∧
      ∀ w, w ∈ leak → looks_like_stack_chk_guard w ≤ looks_like_stack_chk_guard canary := by
  obtain ⟨_, h1, h2⟩ := (leak_success_iff err leak out canary).1 h
  subst h1
  exact ⟨scan_canary_mem leak h2, fun w hw => scan_canary_max leak w hw⟩

theorem selected_word_is_maximal_witness :
    leak_stack_chk_guard 0
        [0, 0x1122334455667788, 0x0123456789ABCDEF, 0x1122334455667788] 7
      = (0, 0x0123456789ABCDEF) ∧
    (0x0123456789ABCDEF ∈ [0, 0x1122334455667788, 0x0123456789ABCDEF, 0x1122334455667788] ∧
      ∀ w, w ∈ [0, 0x1122334455667788, 0x0123456789ABCDEF, 0x1122334455667788] →
        looks_like_stack_chk_guard w ≤ looks_like_stack_chk_guard 0x0123456789ABCDEF) := by
  have hs : scan [0, 0x1122334455667788, 0x0123456789ABCDEF, 0x1122334455667788]
      = (0x0123456789ABCDEF, 4) := by
    simp only [scan, List.foldl_cons, List.foldl_nil]
    rw [scan_step_skip 0 0 0 rfl,
      scan_step_take 0 _ 0 3 lsg_pairs (by norm_num) (by norm_num),
      scan_step_take _ _ 3 4 lsg_all_distinct (by norm_num) (by norm_num),
      scan_step_keep _ _ 4 3 lsg_pairs (by norm_num)]
  have h : leak_stack_chk_guard 0
      [0, 0x1122334455667788, 0x0123456789ABCDEF, 0x1122334455667788] 7
        = (0, 0x0123456789ABCDEF) := by
    rw [leak_success_iff, hs]
    exact ⟨rfl, rfl, by norm_num⟩
  exact ⟨h, selected_word_is_maximal 0 _ 7 _ h⟩

/-- Claim C2: after a successful acquisition the scan fails with return code 2 if
and only if every word of the buffer has likelihood 0, which for a word means that
it is in the kernel-pointer range, or looks like ASCII, or has entropy at most 2.7;
a buffer of zero words fails, and a buffer holding a word of positive likelihood
succeeds. -/
theorem no_candidate_iff_all_zero_likelihood (leak : List Nat) (out : Nat) :
    ((leak_stack_chk_guard 0 leak out).1 = 2 ↔
      ∀ w, w ∈ leak → looks_like_stack_chk_guard w = 0) ∧
    (∀ w, looks_like_stack_chk_guard w = 0 ↔
      (w >>> 44 = 0xfffff ∨ looks_ascii w = true ∨ shannon_entropy w ≤ 2.7)) ∧
    looks_ascii 0 = true ∧
    ((∀ w, w ∈ leak → w = 0) → (leak_stack_chk_guard 0 leak out).1 = 2) ∧
    ((∃ w, w ∈ leak ∧ 0 < looks_like_stack_chk_guard w) →
      (leak_stack_chk_guard 0 leak out).1 = 0) := by
  refine ⟨?_, lsg_eq_zero_iff, looks_ascii_zero, ?_, ?_⟩
  · rw [leak_ret_two_iff, scan_canary_eq_zero_iff]
  · intro h
    rw [leak_ret_two_iff, scan_canary_eq_zero_iff]
    intro w hw
    rw [h w hw]
    exact lsg_zero
  · rintro ⟨w, hw, hpos⟩
    rw [leak_ret_zero_iff]
    intro hc
    rw [(scan_canary_eq_zero_iff leak).1 hc w hw] at hpos
    exact absurd hpos (lt_irrefl _)

theorem no_candidate_iff_all_zero_likelihood_witness :
    ((∀ w, w ∈ [0, 0, 0] → w = 0) ∧ (leak_stack_chk_guard 0 [0, 0, 0] 5).1 = 2) ∧
    ((∃ w, w ∈ [0x1122334455667788, 0, 0] ∧ 0 < looks_like_stack_chk_guard w) ∧
      (leak_stack_chk_guard 0 [0x1122334455667788, 0, 0] 5).1 = 0) := by
  have h1 : ∀ w, w ∈ [0, 0, 0] → w = 0 := by
    intro w hw
    simpa using hw
  have h2 : ∃ w, w ∈ [0x1122334455667788, 0, 0] ∧ 0 < looks_like_stack_chk_guard w :=
    ⟨0x1122334455667788, by simp, by rw [lsg_pairs]; norm_num⟩
  exact ⟨⟨h1, (no_candidate_iff_all_zero_likelihood [0, 0, 0] 5).2.2.2.1 h1⟩,
    ⟨h2, (no_candidate_iff_all_zero_likelihood [0x1122334455667788, 0, 0] 5).2.2.2.2 h2⟩⟩

theorem scan_first_max (leak : List Nat) (h : (scan leak).1 ≠ 0) :
    ∃ i, ∃ hi : i < leak.length, leak[i] = (scan leak).1 ∧
      (∀ j, ∀ hj : j < leak.length,
        looks_like_stack_chk_guard leak[j] ≤ looks_like_stack_chk_guard leak[i]) ∧
      (∀ j, ∀ hj : j < leak.length, j < i →
        looks_like_stack_chk_guard leak[j] < looks_like_stack_chk_guard leak[i]) := by
  obtain ⟨h1, h2, h3⟩ := scanInv_scan leak
  rcases h3 with h3 | ⟨_, i, hi, hlt⟩
  · rw [h3] at h
    exact absurd rfl h
  · obtain ⟨hil, hget⟩ := List.getElem?_eq_some_iff.1 hi
    refine ⟨i, hil, hget, ?_, ?_⟩
    · intro j hj
      rw [hget, ← h1]
      exact h2 _ (List.getElem_mem hj)
    · intro j hj hji
      rw [hget, ← h1]
      exact hlt j _ hji (List.getElem?_eq_getElem hj)

/-- Claim C4: when `leak_stack_chk_guard` succeeds, the stored canary is non-zero,
is outside the kernel-pointer range, does not look like ASCII, and has entropy
strictly above the threshold 2.7. -/
theorem selected_word_passes_filters (err : Int) (leak : List Nat) (out canary : Nat)
    (h : leak_stack_chk_guard err leak out = (0, canary)) :
    canary ≠ 0 ∧ canary >>> 44 ≠ 0xfffff ∧ looks_ascii canary = false ∧
      stack_chk_guard_entropy_threshold < shannon_entropy canary ∧
      stack_chk_guard_entropy_threshold = 2.7 := by
  obtain ⟨_, h1, h2⟩ := (leak_success_iff err leak out canary).1 h
  subst h1
  obtain ⟨a, b, c⟩ := (lsg_pos_iff _).1 (scan_canary_pos leak h2)
  exact ⟨h2, a, b, c, rfl⟩

theorem selected_word_passes_filters_witness :
    leak_stack_chk_guard 0 [0, 0x1122334455667788] 1 = (0, 0x1122334455667788) ∧
    ((0x1122334455667788 : Nat) ≠ 0 ∧ 0x1122334455667788 >>> 44 ≠ 0xfffff ∧
      looks_ascii 0x1122334455667788 = false ∧
      stack_chk_guard_entropy_threshold < shannon_entropy 0x1122334455667788 ∧
      stack_chk_guard_entropy_threshold = 2.7) := by
  have hs : scan [0, 0x1122334455667788] = (0x1122334455667788, 3) := by
    simp only [scan, List.foldl_cons, List.foldl_nil]
    rw [scan_step_skip 0 0 0 rfl,
      scan_step_take 0 _ 0 3 lsg_pairs (by norm_num) (by norm_num)]
  have h : leak_stack_chk_guard 0 [0, 0x1122334455667788] 1 = (0, 0x1122334455667788) := by
    rw [leak_success_iff, hs]
    exact ⟨rfl, rfl, by norm_num⟩
  exact ⟨h, selected_word_passes_filters 0 _ 1 _ h⟩

/-- Claim C5: the likelihood of a word is 0 when the word is in the kernel-pointer
range, 0 when it looks like ASCII, 0 when its entropy is at most 2.7 (so also when
it is exactly 2.7), and otherwise it is the entropy of the word. -/
theorem likelihood_cases (w : Nat) :
    (w >>> 44 = 0xfffff → looks_like_stack_chk_guard w = 0) ∧
    (looks_ascii w = true → looks_like_stack_chk_guard w = 0) ∧
    (shannon_entropy w ≤ 2.7 → looks_like_stack_chk_guard w = 0) ∧
    (shannon_entropy w = 2.7 → looks_like_stack_chk_guard w = 0) ∧
    (w >>> 44 ≠ 0xfffff → looks_ascii w = false → 2.7 < shannon_entropy w →
      looks_like_stack_chk_guard w = shannon_entropy w) :=
  ⟨lsg_kernel_pointer w, lsg_ascii w, lsg_low_entropy w,
    fun h => lsg_low_entropy w (le_of_eq h), lsg_accept w⟩

theorem likelihood_cases_witness :
    (0xFFFFFFFF12345678 >>> 44 = 0xfffff ∧
      looks_like_stack_chk_guard 0xFFFFFFFF12345678 = 0) ∧
    (looks_ascii 0x6161616161616161 = true ∧
      looks_like_stack_chk_guard 0x6161616161616161 = 0) ∧
    (shannon_entropy 0x8888888888888888 ≤ 2.7 ∧
      looks_like_stack_chk_guard 0x8888888888888888 = 0) ∧
    (0x1122334455667788 >>> 44 ≠ 0xfffff ∧ looks_ascii 0x1122334455667788 = false ∧
      2.7 < shannon_entropy 0x1122334455667788 ∧
      looks_like_stack_chk_guard 0x1122334455667788 = shannon_entropy 0x1122334455667788) := by
  have h1 : 0xFFFFFFFF12345678 >>> 44 = 0xfffff := by decide
  have h2 : looks_ascii 0x6161616161616161 = true := by decide
  have h3 : shannon_entropy 0x8888888888888888 ≤ 2.7 := by
    rw [shannon_entropy_const _ (by decide)]
    norm_num
  have h4 : 0x1122334455667788 >>> 44 ≠ 0xfffff := by decide
  have h5 : looks_ascii 0x1122334455667788 = false := by decide
  have h6 : 2.7 < shannon_entropy 0x1122334455667788 := by
    rw [shannon_entropy_pairs]
    norm_num
  exact ⟨⟨h1, (likelihood_cases _).1 h1⟩, ⟨h2, (likelihood_cases _).2.1 h2⟩,
    ⟨h3, (likelihood_cases _).2.2.1 h3⟩, ⟨h4, h5, h6, (likelihood_cases _).2.2.2.2 h4 h5 h6⟩⟩

/-- Claim C6: `looks_ascii v` holds exactly when each of the 8 bytes of `v` is in
`0x00..0x7F`, that is when `v & 0x8080808080808080` is 0; the zero-byte test is
absorbed by `isascii`; `0` and the bytes of "aaaaaaaa" pass, and a value with a
byte of `0x80` or more, such as `0x8100000000000000`, does not. -/
theorem looks_ascii_characterisation (v : Nat) :
    (looks_ascii v = true ↔ ∀ i, i < 8 → byte_at v i ≤ 0x7f) ∧
    (looks_ascii v = true ↔ v &&& 0x8080808080808080 = 0) ∧
    (∀ byte, (byte == 0 || isascii byte) = isascii byte) ∧
    looks_ascii 0 = true ∧
    looks_ascii 0x6161616161616161 = true ∧
    looks_ascii 0x8100000000000000 = false ∧
    ((∃ i, i < 8 ∧ 0x80 ≤ byte_at v i) → looks_ascii v = false) := by
  refine ⟨looks_ascii_iff_bytes v, looks_ascii_iff_mask v, zero_test_absorbed,
    by decide, by decide, by decide, ?_⟩
  rintro ⟨i, hi, hb⟩
  cases h : looks_ascii v
  · rfl
  · have := (looks_ascii_iff_bytes v).1 h i hi
    omega

theorem looks_ascii_characterisation_witness :
    (∃ i, i < 8 ∧ 0x80 ≤ byte_at 0x1122334455667788 i) ∧
      looks_ascii 0x1122334455667788 = false :=
  have h : ∃ i, i < 8 ∧ 0x80 ≤ byte_at 0x1122334455667788 i := ⟨0, by decide, by decide⟩
  ⟨h, (looks_ascii_characterisation 0x1122334455667788).2.2.2.2.2.2 h⟩

/-- Claim C7: for a 64-bit value the kernel-pointer test `(v >> 44) == 0xfffff` holds
exactly when bits 63 down to 44 are all set, that is when `v` is at least
`0xFFFFF00000000000`; such a value has likelihood 0; the test holds for
`0xFFFFFFFF12345678` and fails for `0x0000000012345678`. -/
theorem kernel_pointer_characterisation (v : Nat) (hv : v < 2 ^ 64) :
    (v >>> 44 = 0xfffff ↔ ∀ i, 44 ≤ i → i < 64 → v.testBit i = true) ∧
    (v >>> 44 = 0xfffff ↔ 0xFFFFF00000000000 ≤ v) ∧
    (v >>> 44 = 0xfffff → looks_like_stack_chk_guard v = 0) ∧
    0xFFFFFFFF12345678 >>> 44 = 0xfffff ∧
    0x0000000012345678 >>> 44 ≠ 0xfffff :=
  ⟨kernel_pointer_iff_bits v hv, kernel_pointer_iff_ge v hv, lsg_kernel_pointer v,
    by decide, by decide⟩

theorem kernel_pointer_characterisation_witness :
    0xFFFFF0123456789A < 2 ^ 64 ∧ 0xFFFFF0123456789A >>> 44 = 0xfffff ∧
      looks_like_stack_chk_guard 0xFFFFF0123456789A = 0 :=
  have hv : 0xFFFFF0123456789A < 2 ^ 64 := by norm_num
  have hk : 0xFFFFF0123456789A >>> 44 = 0xfffff := by decide
  ⟨hv, hk, (kernel_pointer_characterisation 0xFFFFF0123456789A hv).2.2.1 hk⟩

/-- Claim C8: the entropy of every value lies between 0 and 4. -/
theorem shannon_entropy_bounds (v : Nat) :
    0 ≤ shannon_entropy v ∧ shannon_entropy v ≤ 4 :=
  ⟨shannon_entropy_nonneg v, shannon_entropy_le_four v⟩

/-- Claim C10: a value whose 16 nibbles are all identical has entropy 0; this holds
for the 16 values `k * 0x1111111111111111` with `k < 16`, and for 0. -/
theorem constant_nibbles_entropy_zero :
    (∀ v, (∀ i, i < 16 → nibble_at v i = nibble_at v 0) → shannon_entropy v = 0) ∧
    (∀ k, k < 16 → shannon_entropy (k * 0x1111111111111111) = 0) ∧
    shannon_entropy 0 = 0 :=
  ⟨shannon_entropy_const,
    fun k hk => shannon_entropy_const _ (repeated_nibble_const k hk),
    shannon_entropy_const 0 (by decide)⟩

theorem constant_nibbles_entropy_zero_witness :
    (∀ i, i < 16 → nibble_at 0xAAAAAAAAAAAAAAAA i = nibble_at 0xAAAAAAAAAAAAAAAA 0) ∧
      shannon_entropy 0xAAAAAAAAAAAAAAAA = 0 ∧
      shannon_entropy (3 * 0x1111111111111111) = 0 :=
  have h : ∀ i, i < 16 → nibble_at 0xAAAAAAAAAAAAAAAA i = nibble_at 0xAAAAAAAAAAAAAAAA 0 := by
    decide
  ⟨h, constant_nibbles_entropy_zero.1 0xAAAAAAAAAAAAAAAA h,
    constant_nibbles_entropy_zero.2.1 3 (by decide)⟩

/-! ### Further lemmas -/

theorem shannon_entropy_of_counts_one (v : Nat) (h : ∀ k, k < 16 → nibble_count v k = 1) :
    shannon_entropy v = 4 := by
  have h2 : ∀ k, k ∈ Finset.range 16 →
      bucket_term 16 (nibble_count v k) = bucket_term 16 1 := by
    intro k hk
    rw [h k (Finset.mem_range.1 hk)]
  rw [shannon_entropy_eq_sum, Finset.sum_congr rfl h2]
  simp only [Finset.sum_const, Finset.card_range, bucket_term_one]
  norm_num

theorem scan_step_noskip_eq (st : Nat × ℝ) (w : Nat)
    (h : st.2 = looks_like_stack_chk_guard st.1) :
    scan_step_noskip st w = scan_step st w := by
  unfold scan_step_noskip scan_step
  by_cases hw : w = st.1
  · rw [if_pos hw]
    have : ¬ looks_like_stack_chk_guard w > st.2 := by
      rw [hw, h]
      exact lt_irrefl _
    simp only [this, if_false]
  · rw [if_neg hw]

theorem scan_step_score (st : Nat × ℝ) (w : Nat)
    (h : st.2 = looks_like_stack_chk_guard st.1) :
    (scan_step st w).2 = looks_like_stack_chk_guard (scan_step st w).1 := by
  unfold scan_step
  by_cases hw : w = st.1
  · rw [if_pos hw]
    exact h
  · rw [if_neg hw]
    by_cases hgt : looks_like_stack_chk_guard w > st.2
    · simp only [hgt, if_true]
    · simp only [hgt, if_false]
      exact h

theorem foldl_noskip_eq (l : List Nat) :
    ∀ st : Nat × ℝ, st.2 = looks_like_stack_chk_guard st.1 →
      l.foldl scan_step_noskip st = l.foldl scan_step st := by
  induction l with
  | nil => intro st _; rfl
  | cons w l ih =>
    intro st h
    rw [List.foldl_cons, List.foldl_cons, scan_step_noskip_eq st w h]
    exact ih _ (scan_step_score st w h)

theorem scan_noskip_eq (leak : List Nat) : scan_noskip leak = scan leak :=
  foldl_noskip_eq leak (0, 0) lsg_zero.symm

theorem scan_score_eq (leak : List Nat) :
    (scan leak).2 = looks_like_stack_chk_guard (scan leak).1 :=
  (scanInv_scan leak).1

theorem scan_single_candidate (leak : List Nat) (i : Nat) (hi : i < leak.length)
    (hpos : 0 < looks_like_stack_chk_guard leak[i])
    (hz : ∀ j, ∀ hj : j < leak.length, j ≠ i → leak[j] = 0) :
    scan leak = (leak[i], shannon_entropy leak[i]) := by
  have hmax := scan_canary_max leak leak[i] (List.getElem_mem hi)
  have hc : (scan leak).1 ≠ 0 := by
    intro h0
    rw [h0, lsg_zero] at hmax
    exact absurd (lt_of_lt_of_le hpos hmax) (lt_irrefl _)
  obtain ⟨j, hj, hget⟩ := List.getElem_of_mem (scan_canary_mem leak hc)
  have hji : j = i := by
    by_contra hne
    exact hc (hget ▸ hz j hj hne)
  subst hji
  have hscore : looks_like_stack_chk_guard leak[j] = shannon_entropy leak[j] := by
    rcases lsg_eq_zero_or_entropy leak[j] with h | h
    · rw [h] at hpos
      exact absurd hpos (lt_irrefl _)
    · exact h
  apply Prod.ext
  · exact hget.symm
  · show (scan leak).2 = shannon_entropy leak[j]
    rw [scan_score_eq, ← hget, hscore]

theorem foldr_max_nonneg (l : List ℝ) : 0 ≤ l.foldr max 0 := by
  induction l with
  | nil => exact le_refl _
  | cons x l ih => exact le_trans ih (le_max_right _ _)

theorem le_foldr_max (l : List ℝ) (x : ℝ) (hx : x ∈ l) : x ≤ l.foldr max 0 := by
  induction l with
  | nil => exact absurd hx (List.not_mem_nil x)
  | cons y l ih =>
    rcases List.mem_cons.1 hx with h | h
    · rw [h]
      exact le_max_left _ _
    · exact le_trans (ih h) (le_max_right _ _)

theorem foldr_max_mem (l : List ℝ) : l.foldr max 0 = 0 ∨ l.foldr max 0 ∈ l := by
  induction l with
  | nil => exact Or.inl rfl
  | cons y l ih =>
    rw [List.foldr_cons]
    rcases max_choice y (l.foldr max 0) with h | h
    · rw [h]
      exact Or.inr (List.mem_cons_self _ _)
    · rw [h]
      rcases ih with h2 | h2
      · exact Or.inl h2
      · exact Or.inr (List.mem_cons_of_mem _ h2)

theorem scan_score_eq_max (l : List Nat) :
    (scan l).2 = (l.map looks_like_stack_chk_guard).foldr max 0 := by
  obtain ⟨h1, h2, h3⟩ := scanInv_scan l
  apply le_antisymm
  · rcases h3 with h3 | ⟨_, i, hi, _⟩
    · rw [h3]
      exact foldr_max_nonneg _
    · rw [h1]
      exact le_foldr_max _ _ (List.mem_map_of_mem _ (List.getElem?_mem hi))
  · have hnn : 0 ≤ (scan l).2 := by
      rw [h1]
      exact lsg_nonneg _
    rcases foldr_max_mem (l.map looks_like_stack_chk_guard) with h | h
    · rw [h]
      exact hnn
    · obtain ⟨w, hw, hwe⟩ := List.mem_map.1 h
      rw [← hwe]
      exact h2 w hw

theorem scan_canary_zero_iff_score (l : List Nat) : (scan l).1 = 0 ↔ (scan l).2 = 0 := by
  obtain ⟨h1, _, h3⟩ := scanInv_scan l
  constructor
  · intro h
    rw [h1, h, lsg_zero]
  · intro h
    rcases h3 with h3 | ⟨hpos, _⟩
    · rw [h3]
    · rw [h] at hpos
      exact absurd hpos (lt_irrefl _)

theorem scan_resume (leak : List Nat) (n : Nat) :
    scan leak = (leak.drop n).foldl scan_step (scan (leak.take n)) := by
  unfold scan
  rw [← List.foldl_append, List.take_append_drop]

theorem leak_ret_one_iff (err : Int) (leak : List Nat) (out : Nat) :
    (leak_stack_chk_guard err leak out).1 = 1 ↔ err ≠ 0 := by
  unfold leak_stack_chk_guard
  by_cases he : err = 0
  · by_cases hc : (scan leak).1 = 0
    · simp [he, hc]
    · simp [he, hc]
  · simp [he]

theorem leak_ret_cases (err : Int) (leak : List Nat) (out : Nat) :
    leak_stack_chk_guard err leak out =
      if err ≠ 0 then (1, out)
      else if (scan leak).1 = 0 then (2, out) else (0, (scan leak).1) := rfl

theorem bucket_term_eq (c : Nat) (hc : 0 < c) :
    bucket_term 16 c = ((c : ℝ) / 16) * (Real.logb 2 c - 4) := by
  have hc0 : (c : ℝ) ≠ 0 := by
    have : (0 : ℝ) < (c : ℝ) := by exact_mod_cast hc
    exact ne_of_gt this
  unfold bucket_term log2f
  rw [if_pos hc]
  push_cast
  rw [Real.logb_div hc0 (by norm_num), logb_two_sixteen]

theorem logb_two_three_lt : Real.logb 2 3 < 2 := by
  have h : Real.logb 2 3 < Real.logb 2 4 :=
    Real.logb_lt_logb (by norm_num) (by norm_num) (by norm_num)
  have h4 : Real.logb 2 4 = 2 := by
    have : (4 : ℝ) = 2 ^ (2 : ℕ) := by norm_num
    rw [this, Real.logb_pow]
    simp
  rw [h4] at h
  exact h

theorem shannon_entropy_text : 2.7 < shannon_entropy 0x3827766554433221 := by
  have h : ∀ k, k ∈ Finset.range 16 →
      bucket_term 16 (nibble_count 0x3827766554433221 k)
        = bucket_term 16 (if k = 1 ∨ k = 8 then 1 else if k = 2 ∨ k = 3 then 3
            else if 4 ≤ k ∧ k ≤ 7 then 2 else 0) := by
    intro k hk
    have hd : ∀ k, k < 16 →
        nibble_count 0x3827766554433221 k
          = if k = 1 ∨ k = 8 then 1 else if k = 2 ∨ k = 3 then 3
            else if 4 ≤ k ∧ k ≤ 7 then 2 else 0 := by decide
    rw [hd k (Finset.mem_range.1 hk)]
  have h3 : bucket_term 16 3 = (3 / 16) * (Real.logb 2 3 - 4) := by
    have := bucket_term_eq 3 (by norm_num)
    push_cast at this
    exact this
  rw [shannon_entropy_eq_sum, Finset.sum_congr rfl h]
  simp only [Finset.sum_range_succ, Finset.sum_range_zero]
  norm_num [bucket_term_zero, bucket_term_one, bucket_term_two, h3]
  have := logb_two_three_lt
  linarith

theorem printable_looks_ascii (v : Nat)
    (h : ∀ i, i < 8 → 0x20 ≤ byte_at v i ∧ byte_at v i ≤ 0x7e) : looks_ascii v = true := by
  rw [looks_ascii_iff_bytes]
  intro i hi
  have := (h i hi).2
  omega

theorem bucket_term_eq_all (c : Nat) :
    bucket_term 16 c = Real.logb 2 (((c ^ c : Nat) : ℝ)) / 16 - (c : ℝ) / 4 := by
  rcases Nat.eq_zero_or_pos c with h | h
  · subst h
    rw [bucket_term_zero]
    simp
  · rw [bucket_term_eq c h]
    push_cast
    rw [Real.logb_pow]
    ring

theorem nibble_weight_pos (v : Nat) : 0 < nibble_weight v := by
  unfold nibble_weight
  apply Finset.prod_pos
  intro k _
  rcases Nat.eq_zero_or_pos (nibble_count v k) with h | h
  · rw [h]
    norm_num
  · exact pow_pos h _

theorem shannon_entropy_eq_weight (v : Nat) :
    shannon_entropy v = 4 - Real.logb 2 (nibble_weight v) / 16 := by
  have hne : ∀ k, k ∈ Finset.range 16 →
      (((nibble_count v k ^ nibble_count v k : Nat) : ℝ)) ≠ 0 := by
    intro k _
    have : 0 < nibble_count v k ^ nibble_count v k := by
      rcases Nat.eq_zero_or_pos (nibble_count v k) with h | h
      · rw [h]
        norm_num
      · exact pow_pos h _
    exact_mod_cast ne_of_gt this
  have hsum : ∑ k in Finset.range 16, (nibble_count v k : ℝ) = 16 := by
    exact_mod_cast nibble_count_sum v
  rw [shannon_entropy_eq_sum]
  simp only [bucket_term_eq_all, Finset.sum_sub_distrib]
  rw [← Finset.sum_div, ← Finset.sum_div, hsum, ← Real.logb_prod _ _ hne]
  unfold nibble_weight
  push_cast
  ring

theorem nat_pow_five_ne (p : Nat) : p ^ 5 ≠ 2 ^ 104 := by
  intro h
  have hd : p ∣ 2 ^ 104 := by
    rw [← h]
    exact dvd_pow_self p (by norm_num)
  obtain ⟨a, _, ha⟩ := (Nat.dvd_prime_pow Nat.prime_two).1 hd
  rw [ha, ← pow_mul] at h
  have := Nat.pow_right_injective (le_refl 2) h
  omega

theorem shannon_entropy_ne_threshold (v : Nat) : shannon_entropy v ≠ 2.7 := by
  intro h
  rw [shannon_entropy_eq_weight] at h
  have hpos : (0 : ℝ) < (nibble_weight v : ℝ) := by exact_mod_cast nibble_weight_pos v
  have hl : Real.logb 2 ((nibble_weight v : ℝ) ^ 5) = Real.logb 2 ((2 : ℝ) ^ 104) := by
    rw [Real.logb_pow, Real.logb_pow, Real.logb_self_eq_one (by norm_num)]
    push_cast
    linarith
  have heq : ((nibble_weight v : ℝ) ^ 5) = (2 : ℝ) ^ 104 :=
    Real.logb_injOn_pos (by norm_num) (Set.mem_Ioi.2 (pow_pos hpos 5))
      (Set.mem_Ioi.2 (by positivity)) hl
  have hnat : nibble_weight v ^ 5 = 2 ^ 104 := by exact_mod_cast heq
  exact nat_pow_five_ne _ hnat

theorem distinct_nibbles_pos (v : Nat) : 0 < distinct_nibbles v := by
  unfold distinct_nibbles
  rw [Finset.card_pos]
  by_contra hne
  rw [Finset.not_nonempty_iff_eq_empty] at hne
  have hall : ∀ k, k ∈ Finset.range 16 → nibble_count v k = 0 := by
    intro k hk
    by_contra hk0
    have : k ∈ (Finset.range 16).filter (fun k => 0 < nibble_count v k) :=
      Finset.mem_filter.2 ⟨hk, Nat.pos_of_ne_zero hk0⟩
    rw [hne] at this
    exact absurd this (Finset.not_mem_empty k)
  have := nibble_count_sum v
  rw [Finset.sum_eq_zero hall] at this
  exact absurd this (by norm_num)

theorem support_prob_sum (v : Nat) :
    ∑ k in (Finset.range 16).filter (fun k => 0 < nibble_count v k),
      ((nibble_count v k : ℝ) / 16) = 1 := by
  have hsum : ∑ k in Finset.range 16, (nibble_count v k : ℝ) = 16 := by
    exact_mod_cast nibble_count_sum v
  rw [Finset.sum_filter]
  have : ∀ k, k ∈ Finset.range 16 →
      (if 0 < nibble_count v k then ((nibble_count v k : ℝ) / 16) else 0)
        = (nibble_count v k : ℝ) / 16 := by
    intro k _
    split
    · rfl
    · rename_i h
      have h0 : nibble_count v k = 0 := by omega
      rw [h0]
      simp
  rw [Finset.sum_congr rfl this, ← Finset.sum_div, hsum]
  norm_num

theorem shannon_entropy_le_logb_distinct (v : Nat) :
    shannon_entropy v ≤ Real.logb 2 (distinct_nibbles v) := by
  have hm : (0 : ℝ) < (distinct_nibbles v : ℝ) := by exact_mod_cast distinct_nibbles_pos v
  have hlog2 : (0 : ℝ) < Real.log 2 := Real.log_pos (by norm_num)
  have key : ∀ k, k ∈ (Finset.range 16).filter (fun k => 0 < nibble_count v k) →
      -((nibble_count v k : ℝ) / 16) * Real.log ((nibble_count v k : ℝ) / 16)
        ≤ ((nibble_count v k : ℝ) / 16) * Real.log (distinct_nibbles v)
          + (1 / (distinct_nibbles v : ℝ) - (nibble_count v k : ℝ) / 16) := by
    intro k hk
    have hc : 0 < nibble_count v k := (Finset.mem_filter.1 hk).2
    have hp : (0 : ℝ) < (nibble_count v k : ℝ) / 16 := by
      have : (0 : ℝ) < (nibble_count v k : ℝ) := by exact_mod_cast hc
      positivity
    have hx : (0 : ℝ) < (distinct_nibbles v : ℝ) * ((nibble_count v k : ℝ) / 16) :=
      mul_pos hm hp
    have h1 := Real.one_sub_inv_le_log_of_pos hx
    rw [Real.log_mul (ne_of_gt hm) (ne_of_gt hp)] at h1
    have h2 : ((nibble_count v k : ℝ) / 16)
        * (1 - ((distinct_nibbles v : ℝ) * ((nibble_count v k : ℝ) / 16))⁻¹)
        = (nibble_count v k : ℝ) / 16 - 1 / (distinct_nibbles v : ℝ) := by
      field_simp
      ring
    have h3 := mul_le_mul_of_nonneg_left h1 hp.le
    rw [h2] at h3
    linarith
  have hsum := Finset.sum_le_sum key
  rw [Finset.sum_add_distrib, ← Finset.sum_mul, support_prob_sum, Finset.sum_sub_distrib,
    support_prob_sum, Finset.sum_const, one_mul] at hsum
  have hcard : ((Finset.range 16).filter (fun k => 0 < nibble_count v k)).card
      = distinct_nibbles v := rfl
  rw [hcard, nsmul_eq_mul, mul_one_div_cancel (ne_of_gt hm), sub_self, add_zero] at hsum
  rw [shannon_entropy_eq_ref, entropy_ref]
  have hconv : ∑ k in (Finset.range 16).filter (fun k => 0 < nibble_count v k),
      -((nibble_count v k : ℝ) / 16) * Real.logb 2 ((nibble_count v k : ℝ) / 16)
      = (∑ k in (Finset.range 16).filter (fun k => 0 < nibble_count v k),
          -((nibble_count v k : ℝ) / 16) * Real.log ((nibble_count v k : ℝ) / 16))
        / Real.log 2 := by
    rw [Finset.sum_div]
    refine Finset.sum_congr rfl (fun k _ => ?_)
    rw [← Real.log_div_log]
    ring
  rw [hconv, ← Real.log_div_log]
  exact div_le_div_of_nonneg_right hsum hlog2.le

theorem logb_two_six_lt : Real.logb 2 6 < 2.7 := by
  have h : Real.logb 2 ((6 : ℝ) ^ 10) < Real.logb 2 ((2 : ℝ) ^ 27) :=
    Real.logb_lt_logb (by norm_num) (by positivity) (by norm_num)
  rw [Real.logb_pow, Real.logb_pow, Real.logb_self_eq_one (by norm_num)] at h
  push_cast at h
  linarith

theorem few_distinct_low_entropy (v : Nat) (h : distinct_nibbles v ≤ 6) :
    shannon_entropy v ≤ Real.logb 2 6 := by
  have hm : (0 : ℝ) < (distinct_nibbles v : ℝ) := by exact_mod_cast distinct_nibbles_pos v
  have h6 : (distinct_nibbles v : ℝ) ≤ 6 := by exact_mod_cast h
  exact le_trans (shannon_entropy_le_logb_distinct v)
    ((Real.logb_le_logb (by norm_num) hm (by norm_num)).2 h6)

theorem countP_range_eq_sum (p : Nat → Bool) (n : Nat) :
    (List.range n).countP p = ∑ i in Finset.range n, if p i then 1 else 0 := by
  induction n with
  | zero => simp
  | succ n ih =>
    rw [List.range_succ, List.countP_append, ih, Finset.sum_range_succ, List.countP_singleton]

theorem nibble_count_eq_sum_fin (v k : Nat) :
    nibble_count v k = ∑ i : Fin 16, if nibble_at v i = k then 1 else 0 := by
  unfold nibble_count
  rw [countP_range_eq_sum, Finset.sum_range]
  refine Finset.sum_congr rfl (fun i _ => ?_)
  simp only [beq_iff_eq]

theorem nibble_count_perm (v w : Nat) (σ : Equiv.Perm (Fin 16))
    (h : ∀ i : Fin 16, nibble_at w i = nibble_at v (σ i)) (k : Nat) :
    nibble_count w k = nibble_count v k := by
  rw [nibble_count_eq_sum_fin, nibble_count_eq_sum_fin]
  simp only [h]
  exact Equiv.sum_comp σ (fun i : Fin 16 => if nibble_at v i = k then 1 else 0)

theorem shannon_entropy_of_counts (v w : Nat) (h : ∀ k, nibble_count w k = nibble_count v k) :
    shannon_entropy w = shannon_entropy v := by
  rw [shannon_entropy_eq_sum, shannon_entropy_eq_sum]
  simp only [h]

theorem nibble_at_eq_of_testBit (x y i j : Nat)
    (h : ∀ b, b < 4 → x.testBit (4 * i + b) = y.testBit (4 * j + b)) :
    nibble_at x i = nibble_at y j := by
  unfold nibble_at
  apply Nat.eq_of_testBit_eq
  intro b
  rw [Nat.testBit_and, Nat.testBit_and, Nat.testBit_shiftRight, Nat.testBit_shiftRight]
  by_cases hb : b < 4
  · rw [h b hb]
  · have h15 : Nat.testBit 0xf b = false := by
      apply Nat.testBit_lt_two_pow
      calc (0xf : Nat) < 2 ^ 4 := by norm_num
        _ ≤ 2 ^ b := Nat.pow_le_pow_right (by norm_num) (by omega)
    rw [h15, Bool.and_false, Bool.and_false]

theorem testBit_ff (j : Nat) : Nat.testBit 0xff j = decide (j < 8) := by
  have : (0xff : Nat) = 2 ^ 8 - 1 := by norm_num
  rw [this, Nat.testBit_two_pow_sub_one]

theorem testBit_byte_shift (v i s n : Nat) :
    (byte_at v i <<< s).testBit n
      = (decide (s ≤ n) && decide (n - s < 8) && v.testBit (8 * i + (n - s))) := by
  unfold byte_at
  rw [Nat.testBit_shiftLeft, Nat.testBit_and, Nat.testBit_shiftRight, testBit_ff]
  cases decide (s ≤ n) <;> cases decide (n - s < 8) <;> simp

theorem testBit_byte (v i n : Nat) :
    (byte_at v i).testBit n = (decide (n < 8) && v.testBit (8 * i + n)) := by
  unfold byte_at
  rw [Nat.testBit_and, Nat.testBit_shiftRight, testBit_ff, Bool.and_comm]

theorem testBit_bswap64 (v n : Nat) (hn : n < 64) :
    (bswap64 v).testBit n = v.testBit (8 * (7 - n / 8) + n % 8) := by
  unfold bswap64
  simp only [Nat.testBit_or, testBit_byte_shift, testBit_byte]
  interval_cases n <;> simp

theorem byte_at_bswap64 (v i : Nat) (hi : i < 8) :
    byte_at (bswap64 v) i = byte_at v (7 - i) := by
  apply Nat.eq_of_testBit_eq
  intro b
  rw [testBit_byte, testBit_byte]
  by_cases hb : b < 8
  · rw [testBit_bswap64 v (8 * i + b) (by omega)]
    have : 8 * (7 - (8 * i + b) / 8) + (8 * i + b) % 8 = 8 * (7 - i) + b := by omega
    rw [this]
  · simp [hb]

theorem bswap_nibble_lt (i : Nat) : bswap_nibble i < 16 := by
  unfold bswap_nibble
  omega

theorem nibble_at_bswap64 (v i : Nat) (hi : i < 16) :
    nibble_at (bswap64 v) i = nibble_at v (bswap_nibble i) := by
  apply nibble_at_eq_of_testBit
  intro b hb
  rw [testBit_bswap64 v (4 * i + b) (by omega)]
  have : 8 * (7 - (4 * i + b) / 8) + (4 * i + b) % 8 = 4 * bswap_nibble i + b := by
    unfold bswap_nibble
    omega
  rw [this]

theorem shannon_entropy_bswap64 (v : Nat) :
    shannon_entropy (bswap64 v) = shannon_entropy v := by
  have hinv : ∀ i : Fin 16, bswap_nibble (bswap_nibble i) = i := by decide
  apply shannon_entropy_of_counts
  intro k
  exact nibble_count_perm v (bswap64 v)
    ⟨fun i => ⟨bswap_nibble i, bswap_nibble_lt i⟩, fun i => ⟨bswap_nibble i, bswap_nibble_lt i⟩,
      fun i => Fin.ext (hinv i), fun i => Fin.ext (hinv i)⟩
    (fun i => nibble_at_bswap64 v i i.2) k

/-! ## The claims, continued -/

/-- Claim C11: a value in which each nibble value `0x0..0xF` occurs exactly once,
such as `0x0123456789ABCDEF`, has entropy 4, which no value exceeds. -/
theorem all_distinct_nibbles_entropy_four :
    (∀ v, (∀ k, k < 16 → nibble_count v k = 1) → shannon_entropy v = 4) ∧
    shannon_entropy 0x0123456789ABCDEF = 4 ∧
    (∀ v, shannon_entropy v ≤ 4) :=
  ⟨shannon_entropy_of_counts_one, shannon_entropy_of_counts_one _ (by decide),
    shannon_entropy_le_four⟩

theorem all_distinct_nibbles_entropy_four_witness :
    (∀ k, k < 16 → nibble_count 0x13579BDF02468ACE k = 1) ∧
      shannon_entropy 0x13579BDF02468ACE = 4 :=
  have h : ∀ k, k < 16 → nibble_count 0x13579BDF02468ACE k = 1 := by decide
  ⟨h, all_distinct_nibbles_entropy_four.1 0x13579BDF02468ACE h⟩

/-- Claim C12: removing the test `leak[i] == canary` from the scan loop changes
nothing: the final pair `(canary, canary_likelihood)` is the same, and so are the
return code and the stored value of `leak_stack_chk_guard`. -/
theorem skip_shortcut_is_transparent (err : Int) (leak : List Nat) (out : Nat) :
    scan_noskip leak = scan leak ∧
    leak_stack_chk_guard_noskip err leak out = leak_stack_chk_guard err leak out := by
  refine ⟨scan_noskip_eq leak, ?_⟩
  unfold leak_stack_chk_guard_noskip leak_stack_chk_guard
  rw [scan_noskip_eq]

/-- Claim C13: when one position of the buffer holds a word of positive likelihood
and every other word is zero, `leak_stack_chk_guard` succeeds and stores that word,
and the final score is the entropy of the word; on `[0x1122334455667788, 0, 0]` the
stored word is `0x1122334455667788` and the score is 3, that word being outside the
pointer range, holding the byte `0x88`, and having entropy 3. -/
theorem single_candidate_selected :
    (∀ (leak : List Nat) (out i : Nat) (hi : i < leak.length),
      0 < looks_like_stack_chk_guard leak[i] →
      (∀ j, ∀ hj : j < leak.length, j ≠ i → leak[j] = 0) →
      leak_stack_chk_guard 0 leak out = (0, leak[i]) ∧
        scan leak = (leak[i], shannon_entropy leak[i])) ∧
    (∀ out, leak_stack_chk_guard 0 [0x1122334455667788, 0, 0] out
      = (0, 0x1122334455667788)) ∧
    scan [0x1122334455667788, 0, 0] = (0x1122334455667788, 3) ∧
    0x1122334455667788 >>> 44 ≠ 0xfffff ∧
    byte_at 0x1122334455667788 0 = 0x88 ∧
    looks_ascii 0x1122334455667788 = false ∧
    shannon_entropy 0x1122334455667788 = 3 := by
  have gen : ∀ (leak : List Nat) (out i : Nat) (hi : i < leak.length),
      0 < looks_like_stack_chk_guard leak[i] →
      (∀ j, ∀ hj : j < leak.length, j ≠ i → leak[j] = 0) →
      leak_stack_chk_guard 0 leak out = (0, leak[i]) ∧
        scan leak = (leak[i], shannon_entropy leak[i]) := by
    intro leak out i hi hpos hz
    have hs := scan_single_candidate leak i hi hpos hz
    refine ⟨?_, hs⟩
    rw [leak_success_iff, hs]
    refine ⟨rfl, rfl, ?_⟩
    intro h0
    rw [h0, lsg_zero] at hpos
    exact absurd hpos (lt_irrefl _)
  have hpos : (0 : ℝ) < looks_like_stack_chk_guard
      (([0x1122334455667788, 0, 0] : List Nat)[0]) := by
    show 0 < looks_like_stack_chk_guard 0x1122334455667788
    rw [lsg_pairs]
    norm_num
  have hz : ∀ j, ∀ hj : j < ([0x1122334455667788, 0, 0] : List Nat).length, j ≠ 0 →
      ([0x1122334455667788, 0, 0] : List Nat)[j] = 0 := by
    intro j hj hne
    have hj3 : j < 3 := hj
    interval_cases j
    · exact absurd rfl hne
    · rfl
    · rfl
  refine ⟨gen, ?_, ?_, by decide, by decide, by decide, shannon_entropy_pairs⟩
  · intro out
    exact (gen [0x1122334455667788, 0, 0] out 0 (by decide) hpos hz).1
  · have := (gen [0x1122334455667788, 0, 0] 0 0 (by decide) hpos hz).2
    rw [this]
    show ((0x1122334455667788 : Nat), shannon_entropy 0x1122334455667788) = _
    rw [shannon_entropy_pairs]

theorem single_candidate_selected_witness :
    (0 : ℝ) < looks_like_stack_chk_guard (([0, 0x0123456789ABCDEF, 0, 0] : List Nat)[1]) ∧
    leak_stack_chk_guard 0 [0, 0x0123456789ABCDEF, 0, 0] 9
      = ((0 : Int), ([0, 0x0123456789ABCDEF, 0, 0] : List Nat)[1]) ∧
    scan [0, 0x0123456789ABCDEF, 0, 0]
      = (([0, 0x0123456789ABCDEF, 0, 0] : List Nat)[1],
          shannon_entropy (([0, 0x0123456789ABCDEF, 0, 0] : List Nat)[1])) := by
  have hpos : (0 : ℝ) < looks_like_stack_chk_guard
      (([0, 0x0123456789ABCDEF, 0, 0] : List Nat)[1]) := by
    show 0 < looks_like_stack_chk_guard 0x0123456789ABCDEF
    rw [lsg_all_distinct]
    norm_num
  have hz : ∀ j, ∀ hj : j < ([0, 0x0123456789ABCDEF, 0, 0] : List Nat).length, j ≠ 1 →
      ([0, 0x0123456789ABCDEF, 0, 0] : List Nat)[j] = 0 := by
    intro j hj hne
    have hj4 : j < 4 := hj
    interval_cases j
    · rfl
    · exact absurd rfl hne
    · rfl
    · rfl
  exact ⟨hpos, single_candidate_selected.1 [0, 0x0123456789ABCDEF, 0, 0] 9 1 (by decide) hpos hz⟩

/-- Claim C14: the ASCII filter is not implied by the entropy threshold: the value
`0x3827766554433221`, the bytes of the text "!2CTev'8", has 8 printable ASCII bytes,
looks like ASCII and has entropy above 2.7; and every value whose 8 bytes are
printable ASCII has likelihood 0, whatever its entropy. -/
theorem ascii_filter_not_implied_by_entropy :
    (∃ v, (∀ i, i < 8 → 0x20 ≤ byte_at v i ∧ byte_at v i ≤ 0x7e) ∧
      looks_ascii v = true ∧ 2.7 < shannon_entropy v) ∧
    (∀ v, (∀ i, i < 8 → 0x20 ≤ byte_at v i ∧ byte_at v i ≤ 0x7e) →
      2.7 < shannon_entropy v →
      looks_ascii v = true ∧ looks_like_stack_chk_guard v = 0) ∧
    ((List.range 8).map (byte_at 0x3827766554433221)
      = [0x21, 0x32, 0x43, 0x54, 0x65, 0x76, 0x27, 0x38]) ∧
    looks_ascii 0x3827766554433221 = true ∧
    2.7 < shannon_entropy 0x3827766554433221 ∧
    looks_like_stack_chk_guard 0x3827766554433221 = 0 :=
  ⟨⟨0x3827766554433221, by decide, by decide, shannon_entropy_text⟩,
    fun v h _ => ⟨printable_looks_ascii v h, lsg_ascii v (printable_looks_ascii v h)⟩,
    by decide, by decide, shannon_entropy_text, lsg_ascii _ (by decide)⟩

theorem ascii_filter_not_implied_by_entropy_witness :
    (∀ i, i < 8 → 0x20 ≤ byte_at 0x3827766554433221 i ∧ byte_at 0x3827766554433221 i ≤ 0x7e) ∧
    2.7 < shannon_entropy 0x3827766554433221 ∧
    looks_ascii 0x3827766554433221 = true ∧
    looks_like_stack_chk_guard 0x3827766554433221 = 0 :=
  have h : ∀ i, i < 8 →
      0x20 ≤ byte_at 0x3827766554433221 i ∧ byte_at 0x3827766554433221 i ≤ 0x7e := by decide
  ⟨h, shannon_entropy_text,
    ascii_filter_not_implied_by_entropy.2.1 0x3827766554433221 h shannon_entropy_text⟩

/-- Claim C15: with the result of `kldstat` as the input `err`, `leak_stack_chk_guard`
returns 1 exactly when `err` is non-zero, 2 exactly when `err` is zero and no word
of the buffer has positive likelihood, and 0 otherwise; `*stack_chk_guard` keeps
its value unless the result is 0, in which case it receives the canary; and the
exit status of `main` is that result. -/
theorem return_code_taxonomy (err : Int) (leak : List Nat) (out : Nat) :
    ((leak_stack_chk_guard err leak out).1 = 1 ↔ err ≠ 0) ∧
    ((leak_stack_chk_guard err leak out).1 = 2 ↔
      (err = 0 ∧ ∀ w, w ∈ leak → ¬ 0 < looks_like_stack_chk_guard w)) ∧
    ((leak_stack_chk_guard err leak out).1 = 0 ↔
      (err = 0 ∧ ∃ w, w ∈ leak ∧ 0 < looks_like_stack_chk_guard w)) ∧
    ((leak_stack_chk_guard err leak out).1 ≠ 0 →
      (leak_stack_chk_guard err leak out).2 = out) ∧
    ((leak_stack_chk_guard err leak out).1 = 0 →
      (leak_stack_chk_guard err leak out).2 = (scan leak).1) ∧
    main err leak out = (leak_stack_chk_guard err leak out).1 := by
  have hz : (scan leak).1 = 0 ↔ ∀ w, w ∈ leak → ¬ 0 < looks_like_stack_chk_guard w := by
    rw [scan_canary_eq_zero_iff]
    constructor
    · intro h w hw
      rw [h w hw]
      exact lt_irrefl _
    · intro h w hw
      exact le_antisymm (not_lt.1 (h w hw)) (lsg_nonneg w)
  have hnz : (scan leak).1 ≠ 0 ↔ ∃ w, w ∈ leak ∧ 0 < looks_like_stack_chk_guard w := by
    rw [ne_eq, hz]
    push_neg
    rfl
  rw [← hz, ← hnz, leak_ret_cases]
  refine ⟨?_, ?_, ?_, ?_, ?_, rfl⟩
  all_goals
    by_cases he : err = 0
    · by_cases hc : (scan leak).1 = 0
      · simp [he, hc]
      · simp [he, hc]
    · simp [he]

theorem return_code_taxonomy_witness :
    ((leak_stack_chk_guard (-1) [0x1122334455667788, 0] 6).1 ≠ 0 ∧
      (leak_stack_chk_guard (-1) [0x1122334455667788, 0] 6).2 = 6) ∧
    ((leak_stack_chk_guard 0 [0x1122334455667788, 0] 6).1 = 0 ∧
      (leak_stack_chk_guard 0 [0x1122334455667788, 0] 6).2
        = (scan [0x1122334455667788, 0]).1) := by
  have h1 : (leak_stack_chk_guard (-1) [0x1122334455667788, 0] 6).1 ≠ 0 := by
    rw [leak_ret_cases]
    simp
  have h2 : (leak_stack_chk_guard 0 [0x1122334455667788, 0] 6).1 = 0 := by
    rw [leak_ret_zero_iff]
    intro h0
    have := (scan_canary_eq_zero_iff _).1 h0 0x1122334455667788 (by simp)
    rw [lsg_pairs] at this
    norm_num at this
  exact ⟨⟨h1, (return_code_taxonomy (-1) [0x1122334455667788, 0] 6).2.2.2.1 h1⟩,
    ⟨h2, (return_code_taxonomy 0 [0x1122334455667788, 0] 6).2.2.2.2.1 h2⟩⟩

/-- Claim C16: after the scan loop has processed the first `n` words of the buffer,
`canary_likelihood` is the likelihood of `canary`, both are 0 exactly when `canary`
is 0, `canary` is 0 or one of those words, and `canary_likelihood` is the maximum of
0 and the likelihoods of those words; the loop then continues from that state. -/
theorem scan_invariant (leak : List Nat) (n : Nat) :
    scan leak = (leak.drop n).foldl scan_step (scan (leak.take n)) ∧
    (scan (leak.take n)).2 = looks_like_stack_chk_guard (scan (leak.take n)).1 ∧
    ((scan (leak.take n)).1 = 0 ↔ (scan (leak.take n)).2 = 0) ∧
    ((scan (leak.take n)).1 = 0 ↔
      looks_like_stack_chk_guard (scan (leak.take n)).1 = 0) ∧
    ((scan (leak.take n)).1 = 0 ∨ (scan (leak.take n)).1 ∈ leak.take n) ∧
    (scan (leak.take n)).2
      = ((leak.take n).map looks_like_stack_chk_guard).foldr max 0 := by
  refine ⟨scan_resume leak n, scan_score_eq _, scan_canary_zero_iff_score _, ?_, ?_,
    scan_score_eq_max _⟩
  · rw [← scan_score_eq]
    exact scan_canary_zero_iff_score _
  · by_cases h : (scan (leak.take n)).1 = 0
    · exact Or.inl h
    · exact Or.inr (scan_canary_mem _ h)

/-- Claim C17: the entropy depends only on the multiset of nibbles: two values with
the same nibble counts have the same entropy; so a value whose 16 nibbles are those
of `v` permuted has the entropy of `v`; in particular the byte-order reversal
`bswap64 v`, whose byte `i` is byte `7 - i` of `v`, has the entropy of `v`. -/
theorem entropy_invariant_under_nibble_permutation :
    (∀ v w, (∀ k, nibble_count w k = nibble_count v k) →
      shannon_entropy w = shannon_entropy v) ∧
    (∀ (v w : Nat) (σ : Equiv.Perm (Fin 16)),
      (∀ i : Fin 16, nibble_at w i = nibble_at v (σ i)) →
      shannon_entropy w = shannon_entropy v) ∧
    (∀ v, (∀ i, i < 8 → byte_at (bswap64 v) i = byte_at v (7 - i)) ∧
      shannon_entropy (bswap64 v) = shannon_entropy v) ∧
    bswap64 0x0123456789ABCDEF = 0xEFCDAB8967452301 :=
  ⟨shannon_entropy_of_counts,
    fun v w σ h => shannon_entropy_of_counts v w (nibble_count_perm v w σ h),
    fun v => ⟨byte_at_bswap64 v, shannon_entropy_bswap64 v⟩,
    by decide⟩

theorem entropy_invariant_under_nibble_permutation_witness :
    (∀ i : Fin 16, nibble_at 0x1122334455667787 i
      = nibble_at 0x1122334455667778 (Equiv.swap (0 : Fin 16) 1 i)) ∧
    shannon_entropy 0x1122334455667787 = shannon_entropy 0x1122334455667778 :=
  have h : ∀ i : Fin 16, nibble_at 0x1122334455667787 i
      = nibble_at 0x1122334455667778 (Equiv.swap (0 : Fin 16) 1 i) := by decide
  ⟨h, entropy_invariant_under_nibble_permutation.2.1 0x1122334455667778 0x1122334455667787
    (Equiv.swap (0 : Fin 16) 1) h⟩

/-- Claim C18: a word of positive likelihood, hence every canary stored by
`leak_stack_chk_guard`, has at least 7 distinct nibble values; a word with at most 6
distinct nibble values has entropy at most `log2(6)`, which is below 2.7, and has
likelihood 0. -/
theorem threshold_needs_seven_distinct_nibbles :
    (∀ v, 0 < looks_like_stack_chk_guard v → 7 ≤ distinct_nibbles v) ∧
    (∀ (err : Int) (leak : List Nat) (out canary : Nat),
      leak_stack_chk_guard err leak out = (0, canary) → 7 ≤ distinct_nibbles canary) ∧
    (∀ v, distinct_nibbles v ≤ 6 →
      shannon_entropy v ≤ Real.logb 2 6 ∧ looks_like_stack_chk_guard v = 0) ∧
    Real.logb 2 6 < 2.7 := by
  have low : ∀ v, distinct_nibbles v ≤ 6 →
      shannon_entropy v ≤ Real.logb 2 6 ∧ looks_like_stack_chk_guard v = 0 := by
    intro v h
    have h1 := few_distinct_low_entropy v h
    exact ⟨h1, lsg_low_entropy v (le_trans h1 logb_two_six_lt.le)⟩
  have high : ∀ v, 0 < looks_like_stack_chk_guard v → 7 ≤ distinct_nibbles v := by
    intro v hpos
    by_contra hlt
    rw [(low v (by omega)).2] at hpos
    exact absurd hpos (lt_irrefl _)
  refine ⟨high, ?_, low, logb_two_six_lt⟩
  intro err leak out canary h
  obtain ⟨_, h1, h2⟩ := (leak_success_iff err leak out canary).1 h
  subst h1
  exact high _ (scan_canary_pos leak h2)

theorem threshold_needs_seven_distinct_nibbles_witness :
    ((0 : ℝ) < looks_like_stack_chk_guard 0x1122334455667788 ∧
      7 ≤ distinct_nibbles 0x1122334455667788) ∧
    (distinct_nibbles 0x8111222233334444 ≤ 6 ∧
      shannon_entropy 0x8111222233334444 ≤ Real.logb 2 6 ∧
      looks_like_stack_chk_guard 0x8111222233334444 = 0) := by
  have h1 : (0 : ℝ) < looks_like_stack_chk_guard 0x1122334455667788 := by
    rw [lsg_pairs]
    norm_num
  have h2 : distinct_nibbles 0x8111222233334444 ≤ 6 := by decide
  exact ⟨⟨h1, threshold_needs_seven_distinct_nibbles.1 _ h1⟩,
    ⟨h2, threshold_needs_seven_distinct_nibbles.2.2.1 _ h2⟩⟩

/-! ## The functions with the arithmetic as a parameter -/

theorem exact_shannon_entropy (v : Nat) : exact_real.shannon_entropy v = shannon_entropy v := rfl

theorem exact_looks_like_stack_chk_guard (v : Nat) :
    exact_real.looks_like_stack_chk_guard v = looks_like_stack_chk_guard v := rfl

theorem exact_scan (leak : List Nat) : exact_real.scan leak = scan leak := rfl

theorem exact_leak_stack_chk_guard (err : Int) (leak : List Nat) (out : Nat) :
    exact_real.leak_stack_chk_guard err leak out = leak_stack_chk_guard err leak out := rfl

section Parametrised

variable {F : Type} [LinearOrder F] (A : FloatArith F)

theorem arith_lsg_zero : A.looks_like_stack_chk_guard 0 = A.zero := by
  have h : looks_ascii 0 = true := looks_ascii_zero
  simp [FloatArith.looks_like_stack_chk_guard, h]

theorem arith_lsg_cases (v : Nat) :
    A.looks_like_stack_chk_guard v = A.zero ∨
      (A.threshold < A.looks_like_stack_chk_guard v ∧
        A.looks_like_stack_chk_guard v = A.shannon_entropy v) := by
  unfold FloatArith.looks_like_stack_chk_guard
  by_cases a : (v >>> 44 == 0xfffff) = true
  · rw [if_pos a]
    exact Or.inl rfl
  · rw [if_neg a]
    by_cases b : looks_ascii v = true
    · rw [if_pos b]
      exact Or.inl rfl
    · rw [if_neg b]
      by_cases c : A.shannon_entropy v ≤ A.threshold
      · simp only [c, if_true]
        exact Or.inl trivial
      · simp only [c, if_false]
        exact Or.inr ⟨not_le.1 c, trivial⟩

theorem arith_lsg_nonneg (v : Nat) : A.zero ≤ A.looks_like_stack_chk_guard v := by
  rcases arith_lsg_cases A v with h | ⟨h, _⟩
  · rw [h]
  · exact le_trans A.zero_le_threshold h.le

theorem arith_scanInv_nil : A.ScanInv [] (0, A.zero) :=
  ⟨(arith_lsg_zero A).symm, by simp, Or.inl rfl⟩

theorem arith_scanInv_step (l : List Nat) (st : Nat × F) (w : Nat) (h : A.ScanInv l st) :
    A.ScanInv (l ++ [w]) (A.scan_step st w) := by
  obtain ⟨h1, h2, h3⟩ := h
  have keep : (∀ x, x ∈ l ++ [w] → A.looks_like_stack_chk_guard x ≤ st.2) →
      A.ScanInv (l ++ [w]) st := by
    intro hb
    refine ⟨h1, hb, ?_⟩
    rcases h3 with h3 | ⟨hpos, i, hi, hlt⟩
    · exact Or.inl h3
    · have hil : i < l.length := by
        by_contra hc
        rw [List.getElem?_eq_none (by omega)] at hi
        exact absurd hi (by simp)
      refine Or.inr ⟨hpos, i, ?_, ?_⟩
      · rw [List.getElem?_append_left hil]
        exact hi
      · intro j x hj hx
        rw [List.getElem?_append_left (by omega)] at hx
        exact hlt j x hj hx
  unfold FloatArith.scan_step
  by_cases hw : w = st.1
  · rw [if_pos hw]
    apply keep
    intro x hx
    rcases List.mem_append.1 hx with hx | hx
    · exact h2 x hx
    · rw [List.mem_singleton] at hx
      rw [hx, hw, h1]
  · rw [if_neg hw]
    by_cases hgt : A.looks_like_stack_chk_guard w > st.2
    · simp only [hgt, if_true]
      have hnn : A.zero ≤ st.2 := by rw [h1]; exact arith_lsg_nonneg A _
      refine ⟨rfl, ?_, Or.inr ⟨lt_of_le_of_lt hnn hgt, l.length, ?_, ?_⟩⟩
      · intro x hx
        rcases List.mem_append.1 hx with hx | hx
        · exact le_trans (h2 x hx) hgt.le
        · rw [List.mem_singleton] at hx
          rw [hx]
      · simp
      · intro j x hj hx
        rw [List.getElem?_append_left hj] at hx
        exact lt_of_le_of_lt (h2 x (List.getElem?_mem hx)) hgt
    · simp only [hgt, if_false]
      apply keep
      intro x hx
      rcases List.mem_append.1 hx with hx | hx
      · exact h2 x hx
      · rw [List.mem_singleton] at hx
        rw [hx]
        exact not_lt.1 hgt

theorem arith_scanInv_foldl (l2 : List Nat) :
    ∀ (l1 : List Nat) (st : Nat × F), A.ScanInv l1 st →
      A.ScanInv (l1 ++ l2) (l2.foldl A.scan_step st) := by
  induction l2 with
  | nil => intro l1 st h; simpa using h
  | cons w l2 ih =>
    intro l1 st h
    have := ih (l1 ++ [w]) (A.scan_step st w) (arith_scanInv_step A l1 st w h)
    simpa using this

theorem arith_scanInv_scan (leak : List Nat) : A.ScanInv leak (A.scan leak) := by
  have := arith_scanInv_foldl A leak [] (0, A.zero) (arith_scanInv_nil A)
  simpa [FloatArith.scan] using this

theorem arith_leak_success_iff (err : Int) (leak : List Nat) (out canary : Nat) :
    A.leak_stack_chk_guard err leak out = (0, canary) ↔
      err = 0 ∧ (A.scan leak).1 = canary ∧ canary ≠ 0 := by
  unfold FloatArith.leak_stack_chk_guard
  by_cases he : err = 0
  · by_cases hc : (A.scan leak).1 = 0
    · simp only [he, hc, ne_eq, not_true, if_false, if_true, Prod.mk.injEq]
      constructor
      · intro h
        exact absurd h.1 (by norm_num)
      · rintro ⟨_, h1, h2⟩
        exact absurd h1.symm h2
    · simp only [he, hc, ne_eq, not_true, if_false, Prod.mk.injEq, true_and]
      constructor
      · intro h
        exact ⟨h, fun e => hc (h.trans e)⟩
      · intro h
        exact h.1
  · simp only [he, ne_eq, not_false_eq_true, if_true, Prod.mk.injEq, false_and, iff_false]
    intro h
    exact absurd h.1 (by norm_num)

theorem arith_scan_first_max (leak : List Nat) (h : (A.scan leak).1 ≠ 0) :
    ∃ i, ∃ hi : i < leak.length, leak[i] = (A.scan leak).1 ∧
      (∀ j, ∀ hj : j < leak.length,
        A.looks_like_stack_chk_guard leak[j] ≤ A.looks_like_stack_chk_guard leak[i]) ∧
      (∀ j, ∀ hj : j < leak.length, j < i →
        A.looks_like_stack_chk_guard leak[j] < A.looks_like_stack_chk_guard leak[i]) := by
  obtain ⟨h1, h2, h3⟩ := arith_scanInv_scan A leak
  rcases h3 with h3 | ⟨_, i, hi, hlt⟩
  · rw [h3] at h
    exact absurd rfl h
  · obtain ⟨hil, hget⟩ := List.getElem?_eq_some_iff.1 hi
    refine ⟨i, hil, hget, ?_, ?_⟩
    · intro j hj
      rw [hget, ← h1]
      exact h2 _ (List.getElem_mem hj)
    · intro j hj hji
      rw [hget, ← h1]
      exact hlt j _ hji (List.getElem?_eq_getElem hj)

end Parametrised

/-! ### Evaluation in single precision -/

theorem binary32_threshold : binary32.threshold = 11324621 / 4194304 := by decide!

theorem binary32_bucket_eq : ∀ c, c < 17 → 0 < c →
    binary32.bucket c = binary32_bucket_table c := by decide!

theorem binary32_reach_closed_all : ∀ k, k < 17 → binary32_reach_closed k = true := by
  decide!

section ParametrisedEntropy

variable {F : Type} [LinearOrder F] (A : FloatArith F)

theorem arith_step_eq (count : Nat → Nat) (e : F) (i : Nat) :
    A.shannon_entropy_step 16 count e i
      = if 0 < count i then A.accumulate e (count i) else e := rfl

theorem arith_foldl_counts (count : Nat → Nat) (l : List Nat) :
    ∀ e : F, l.foldl (A.shannon_entropy_step 16 count) e
      = ((l.map count).filter (fun c => decide (0 < c))).foldl A.accumulate e := by
  induction l with
  | nil => intro e; rfl
  | cons i l ih =>
    intro e
    rw [List.foldl_cons, List.map_cons, arith_step_eq]
    by_cases h : 0 < count i
    · rw [if_pos h, List.filter_cons_of_pos (by simpa using h), List.foldl_cons]
      exact ih _
    · rw [if_neg h, List.filter_cons_of_neg (by simpa using h)]
      exact ih _

theorem arith_shannon_entropy_eq_hist (v : Nat) :
    A.shannon_entropy v
      = (List.range 16).foldl (A.shannon_entropy_step 16 (nibble_count v)) A.zero := by
  have h : shannon_entropy_count 16 v (fun _ => 0) = nibble_count v :=
    funext (shannon_entropy_hist_eq v)
  unfold FloatArith.shannon_entropy
  simp only [h]

theorem arith_shannon_entropy_eq_fold (v : Nat) :
    A.shannon_entropy v
      = (((List.range 16).map (nibble_count v)).filter (fun c => decide (0 < c))).foldl
          A.accumulate A.zero := by
  rw [arith_shannon_entropy_eq_hist, arith_foldl_counts]

end ParametrisedEntropy

theorem sum_filter_pos (l : List Nat) : (l.filter (fun c => decide (0 < c))).sum = l.sum := by
  induction l with
  | nil => rfl
  | cons c l ih =>
    by_cases h : 0 < c
    · rw [List.filter_cons_of_pos (by simpa using h), List.sum_cons, List.sum_cons, ih]
    · rw [List.filter_cons_of_neg (by simpa using h), List.sum_cons, ih]
      omega

theorem sum_map_range (f : Nat → Nat) (n : Nat) :
    ((List.range n).map f).sum = ∑ i in Finset.range n, f i := by
  induction n with
  | zero => rfl
  | succ n ih =>
    rw [List.range_succ, List.map_append, List.sum_append, ih, Finset.sum_range_succ]
    simp

theorem positive_counts_sum (v : Nat) :
    (((List.range 16).map (nibble_count v)).filter (fun c => decide (0 < c))).sum = 16 := by
  rw [sum_filter_pos, sum_map_range, nibble_count_sum]

theorem positive_counts_pos (v c : Nat)
    (h : c ∈ ((List.range 16).map (nibble_count v)).filter (fun c => decide (0 < c))) :
    0 < c := by
  simpa using (List.mem_filter.1 h).2

theorem all_found_sound (fuel : Nat) :
    ∀ (xs : List (Option Nat)) (ys : List Nat), all_found fuel xs ys = true →
      ∀ o, o ∈ xs → ∃ m, m ∈ ys ∧ o = some m := by
  induction fuel with
  | zero =>
    intro xs ys h o ho
    cases xs with
    | nil => exact absurd ho (List.not_mem_nil o)
    | cons x xs => simp [all_found] at h
  | succ fuel ih =>
    intro xs ys h o ho
    cases xs with
    | nil => exact absurd ho (List.not_mem_nil o)
    | cons x xs =>
      cases x with
      | none => simp [all_found] at h
      | some x =>
        cases ys with
        | nil => simp [all_found] at h
        | cons y ys =>
          simp only [all_found] at h
          by_cases hxy : x = y
          · rw [if_pos hxy] at h
            rcases List.mem_cons.1 ho with ho | ho
            · exact ⟨y, List.mem_cons_self _ _, by rw [ho, hxy]⟩
            · exact ih xs (y :: ys) h o ho
          · rw [if_neg hxy] at h
            obtain ⟨m, hm, hom⟩ := ih (some x :: xs) ys h o ho
            exact ⟨m, List.mem_cons_of_mem _ hm, hom⟩

theorem binary32_next_sound (n c m : Nat) (h : binary32_next n c = some m) :
    round_binary32 ((n : ℚ) / 134217728 - binary32_bucket_table c) = (m : ℚ) / 134217728 := by
  unfold binary32_next at h
  simp only [] at h
  split at h
  · rename_i hv
    obtain ⟨hden, hnum⟩ := hv
    have hm : (round_binary32 ((n : ℚ) / 134217728 - binary32_bucket_table c)
        * 134217728).num.toNat = m := Option.some.inj h
    have hx : round_binary32 ((n : ℚ) / 134217728 - binary32_bucket_table c) * 134217728
        = (m : ℚ) := by
      have h1 := Rat.coe_int_num_of_den_eq_one hden
      rw [← h1]
      have h2 : ((round_binary32 ((n : ℚ) / 134217728 - binary32_bucket_table c)
          * 134217728).num.toNat : Int)
          = (round_binary32 ((n : ℚ) / 134217728 - binary32_bucket_table c)
            * 134217728).num := Int.toNat_of_nonneg hnum
      rw [← h2, hm]
      simp
    rw [← hx]
    field_simp
  · exact absurd h (by simp)

theorem mem_binary32_reach (k : Nat) (x : ℚ) :
    x ∈ binary32_reach k ↔ ∃ n, n ∈ binary32_reach_num k ∧ (n : ℚ) / 134217728 = x := by
  unfold binary32_reach
  exact List.mem_map

theorem binary32_accumulate_eq (a : ℚ) (c : Nat) (h1 : 0 < c) (h2 : c < 17) :
    binary32.accumulate a c = round_binary32 (a - binary32_bucket_table c) := by
  rw [← binary32_bucket_eq c h2 h1]
  rfl

theorem binary32_reach_step (k c n : Nat) (hk : k < 17) (h1 : 0 < c) (h2 : c ≤ k)
    (hn : n ∈ binary32_reach_num (k - c)) :
    binary32.accumulate ((n : ℚ) / 134217728) c ∈ binary32_reach k := by
  have hclosed := binary32_reach_closed_all k hk
  unfold binary32_reach_closed at hclosed
  rw [List.all_eq_true] at hclosed
  have hd := hclosed (c - 1) (List.mem_range.2 (by omega))
  have e1 : k - 1 - (c - 1) = k - c := by omega
  have e2 : c - 1 + 1 = c := by omega
  rw [e1, e2] at hd
  obtain ⟨m, hm, hom⟩ := all_found_sound _ _ _ hd (binary32_next n c)
    (List.mem_map.2 ⟨n, hn, rfl⟩)
  rw [binary32_accumulate_eq _ c h1 (by omega), binary32_next_sound n c m hom]
  exact (mem_binary32_reach k _).2 ⟨m, hm, rfl⟩

theorem binary32_reach_mem (cs : List Nat) :
    (∀ c, c ∈ cs → 0 < c) → cs.sum < 17 →
      cs.foldl binary32.accumulate binary32.zero ∈ binary32_reach cs.sum := by
  induction cs using List.reverseRecOn with
  | nil =>
    intro _ _
    show (0 : ℚ) ∈ binary32_reach 0
    simp [binary32_reach, binary32_reach_num]
  | append_singleton cs c ih =>
    intro hpos hsum
    rw [List.sum_append, List.sum_singleton] at hsum
    have hc : 0 < c := hpos c (by simp)
    have ih2 := ih (fun x hx => hpos x (List.mem_append_left _ hx)) (by omega)
    obtain ⟨n, hn, hna⟩ := (mem_binary32_reach _ _).1 ih2
    rw [List.foldl_append, List.foldl_cons, List.foldl_nil, List.sum_append,
      List.sum_singleton, ← hna]
    have e : cs.sum + c - c = cs.sum := by omega
    exact binary32_reach_step (cs.sum + c) c n hsum hc (by omega) (by rw [e]; exact hn)

theorem binary32_entropy_mem (v : Nat) : binary32.shannon_entropy v ∈ binary32_reach 16 := by
  rw [arith_shannon_entropy_eq_fold]
  have h := binary32_reach_mem _ (positive_counts_pos v)
    (by rw [positive_counts_sum]; norm_num)
  rw [positive_counts_sum] at h
  exact h

theorem binary32_reach_avoids_threshold :
    ∀ n, n ∈ binary32_reach_num 16 → n ≠ 362387872 := by decide!

theorem binary32_entropy_ne_threshold (v : Nat) :
    binary32.shannon_entropy v ≠ binary32.threshold := by
  obtain ⟨n, hn, hv⟩ := (mem_binary32_reach _ _).1 (binary32_entropy_mem v)
  rw [← hv, binary32_threshold]
  intro h
  have h2 : (n : ℚ) = 362387872 := by
    field_simp at h
    linarith
  exact binary32_reach_avoids_threshold n hn (by exact_mod_cast h2)

/-- Claim C3: whatever the arithmetic of `float`, when `leak_stack_chk_guard` succeeds
the stored value is the word at the smallest index whose likelihood is the maximum
over the buffer: every word scores at most as much, and every earlier word scores
strictly less, so that a later word with an equal score never replaces it. -/
theorem first_maximal_word_wins {F : Type} [LinearOrder F] (A : FloatArith F)
    (err : Int) (leak : List Nat) (out canary : Nat)
    (h : A.leak_stack_chk_guard err leak out = (0, canary)) :
    ∃ i, ∃ hi : i < leak.length, leak[i] = canary ∧
      (∀ j, ∀ hj : j < leak.length,
        A.looks_like_stack_chk_guard leak[j] ≤ A.looks_like_stack_chk_guard leak[i]) ∧
      (∀ j, ∀ hj : j < leak.length, j < i →
        A.looks_like_stack_chk_guard leak[j] < A.looks_like_stack_chk_guard leak[i]) := by
  obtain ⟨_, h1, h2⟩ := (arith_leak_success_iff A err leak out canary).1 h
  subst h1
  exact arith_scan_first_max A leak h2

theorem first_maximal_word_wins_witness :
    binary32.leak_stack_chk_guard 0 [0x789abcdeeeffffff, 0x789abcdeeeeeefff] 0
      = (0, 0x789abcdeeeeeefff) ∧
    ∃ i, ∃ hi : i < ([0x789abcdeeeffffff, 0x789abcdeeeeeefff] : List Nat).length,
      ([0x789abcdeeeffffff, 0x789abcdeeeeeefff] : List Nat)[i] = 0x789abcdeeeeeefff ∧
      (∀ j, ∀ hj : j < ([0x789abcdeeeffffff, 0x789abcdeeeeeefff] : List Nat).length,
        binary32.looks_like_stack_chk_guard
            (([0x789abcdeeeffffff, 0x789abcdeeeeeefff] : List Nat)[j])
          ≤ binary32.looks_like_stack_chk_guard
            (([0x789abcdeeeffffff, 0x789abcdeeeeeefff] : List Nat)[i])) ∧
      (∀ j, ∀ hj : j < ([0x789abcdeeeffffff, 0x789abcdeeeeeefff] : List Nat).length, j < i →
        binary32.looks_like_stack_chk_guard
            (([0x789abcdeeeffffff, 0x789abcdeeeeeefff] : List Nat)[j])
          < binary32.looks_like_stack_chk_guard
            (([0x789abcdeeeffffff, 0x789abcdeeeeeefff] : List Nat)[i])) :=
  have h : binary32.leak_stack_chk_guard 0 [0x789abcdeeeffffff, 0x789abcdeeeeeefff] 0
      = (0, 0x789abcdeeeeeefff) := by decide!
  ⟨h, first_maximal_word_wins binary32 0 _ 0 _ h⟩

/-- Claim C19: no value has entropy equal to the threshold. In single precision the
result of `shannon_entropy` is one of the 227 values of `binary32_reach 16`, none of
which is `2.7f = 11324621 / 2 ^ 22`; in exact arithmetic the entropy is never 2.7. So
in both the tests `entropy <= threshold` and `entropy < threshold` agree on every
word. -/
theorem threshold_never_attained (v : Nat) :
    binary32.shannon_entropy v ∈ binary32_reach 16 ∧
    binary32.threshold = 11324621 / 4194304 ∧
    binary32.shannon_entropy v ≠ binary32.threshold ∧
    (binary32.shannon_entropy v ≤ binary32.threshold ↔
      binary32.shannon_entropy v < binary32.threshold) ∧
    exact_real.shannon_entropy v ≠ 2.7 ∧
    (exact_real.shannon_entropy v ≤ exact_real.threshold ↔
      exact_real.shannon_entropy v < exact_real.threshold) := by
  refine ⟨binary32_entropy_mem v, binary32_threshold, binary32_entropy_ne_threshold v,
    ?_, shannon_entropy_ne_threshold v, ?_⟩
  · constructor
    · intro h
      exact lt_of_le_of_ne h (binary32_entropy_ne_threshold v)
    · intro h
      exact h.le
  · constructor
    · intro h
      exact lt_of_le_of_ne h (shannon_entropy_ne_threshold v)
    · intro h
      exact h.le

end KldstatStackDisclosure
